import Mathlib

/-!
Verification of the crinex repository (Hatanaka compact RINEX decoder).

Shallow embedding conventions:
- Go byte strings are `List Nat` (byte values; ' ' = 32, '&' = 38, '-' = 45,
  '.' = 46, '0'..'9' = 48..57, '>' = 62).
- Go `int`/`int64` are modelled as unbounded `Int`/`Nat` (the spec demands at
  least 64-bit signed accumulators; no claim depends on wrap-around).
- Loops whose counters are not structurally decreasing are embedded with an
  explicit fuel argument chosen large enough to never run out; a fuel-adequacy
  lemma recovers the Go loop's unfolding equation.
- An out-of-range Go slice index (a runtime panic) is modelled by `List.getD`
  with an explicit default; theorems about in-bounds behaviour never rely on
  the default.
-/

namespace Crinex

/-- Bytes of a Lean string literal, used to write concrete test inputs. -/
def strToBytes (s : String) : List Nat := s.toList.map Char.toNat

/-- Go `unicode.IsSpace` restricted to the byte range (space, \t, \n, \v, \f,
\r, NEL, NBSP), used by `strings.TrimSpace` and `strings.Fields`. -/
def isGoSpace (c : Nat) : Bool :=
  c = 32 || c = 9 || c = 10 || c = 11 || c = 12 || c = 13 || c = 133 || c = 160

/-- Go `strings.TrimSpace` on bytes. -/
def trimSpace (s : List Nat) : List Nat :=
  ((s.dropWhile (fun c => isGoSpace c)).reverse.dropWhile (fun c => isGoSpace c)).reverse

/-- Digit-accumulation loop of Go `strconv.Atoi`: fails on an empty tail only
if the caller requires digits; here it folds the digits and fails on the first
non-digit byte. -/
def parseNatLoop : Nat → List Nat → Option Nat
  | acc, [] => some acc
  | acc, c :: rest =>
    if 48 ≤ c ∧ c ≤ 57 then parseNatLoop (acc * 10 + (c - 48)) rest else none

/-- Go `strconv.Atoi` on bytes: optional sign, then one or more decimal
digits; anything else is an error (`none`). Overflow is not modelled (values
are unbounded). -/
def atoi (s : List Nat) : Option Int :=
  match s with
  | [] => none
  | c :: rest =>
    if c = 45 then
      if rest.isEmpty then none else (parseNatLoop 0 rest).map (fun n : Nat => -(n : Int))
    else if c = 43 then
      if rest.isEmpty then none else (parseNatLoop 0 rest).map (fun n : Nat => (n : Int))
    else (parseNatLoop 0 (c :: rest)).map (fun n : Nat => (n : Int))

theorem atoi_cons (c : Nat) (rest : List Nat) :
    atoi (c :: rest) =
      if c = 45 then
        if rest.isEmpty then none else (parseNatLoop 0 rest).map (fun n : Nat => -(n : Int))
      else if c = 43 then
        if rest.isEmpty then none else (parseNatLoop 0 rest).map (fun n : Nat => (n : Int))
      else (parseNatLoop 0 (c :: rest)).map (fun n : Nat => (n : Int)) := rfl

/-- Little-endian decimal digit bytes of `n` (empty for 0); the first argument
is fuel (`n` itself suffices). -/
def natToBytesRevAux : Nat → Nat → List Nat
  | _, 0 => []
  | 0, _ + 1 => []
  | fuel + 1, n + 1 => (48 + (n + 1) % 10) :: natToBytesRevAux fuel ((n + 1) / 10)

/-- Little-endian decimal digit bytes of `n` (empty for 0). -/
def natToBytesRev (n : Nat) : List Nat := natToBytesRevAux n n

/-- Canonical decimal byte string of a natural number (what Go emits for a
non-negative integer). -/
def natToBytes (n : Nat) : List Nat :=
  if n = 0 then [48] else (natToBytesRev n).reverse

/-- Canonical decimal byte string of an integer, `-` sign for negatives. -/
def intToBytes (z : Int) : List Nat :=
  if z < 0 then 45 :: natToBytes z.natAbs else natToBytes z.natAbs

theorem natToBytesRevAux_congr :
    ∀ n fuel1 fuel2, n ≤ fuel1 → n ≤ fuel2 →
      natToBytesRevAux fuel1 n = natToBytesRevAux fuel2 n := by
  intro n
  induction n using Nat.strong_induction_on with
  | _ n ih =>
    intro fuel1 fuel2 h1 h2
    match n, fuel1, fuel2, h1, h2 with
    | 0, f1, f2, _, _ =>
      match f1, f2 with
      | 0, 0 => rfl
      | 0, _ + 1 => rfl
      | _ + 1, 0 => rfl
      | _ + 1, _ + 1 => rfl
    | m + 1, g1 + 1, g2 + 1, h1, h2 =>
      show (48 + (m + 1) % 10) :: natToBytesRevAux g1 ((m + 1) / 10) = _
      have hd : (m + 1) / 10 ≤ m :=
        Nat.lt_succ_iff.mp (Nat.div_lt_self (Nat.succ_pos m) (by norm_num))
      have := ih ((m + 1) / 10) (Nat.lt_succ_of_le hd) g1 g2 (by omega) (by omega)
      rw [natToBytesRevAux, this]

theorem natToBytesRevAux_adequate (fuel n : Nat) (h : n ≤ fuel) :
    natToBytesRevAux fuel n = natToBytesRev n :=
  natToBytesRevAux_congr n fuel n h le_rfl

theorem natToBytesRev_eq (n : Nat) (h : n ≠ 0) :
    natToBytesRev n = (48 + n % 10) :: natToBytesRev (n / 10) := by
  match n, h with
  | m + 1, _ =>
    show natToBytesRevAux (m + 1) (m + 1) = _
    rw [natToBytesRevAux]
    have hd : (m + 1) / 10 ≤ m := Nat.lt_succ_iff.mp (Nat.div_lt_self (Nat.succ_pos m) (by norm_num))
    rw [natToBytesRevAux_adequate m _ hd]

theorem mem_natToBytesRev {c n : Nat} (h : c ∈ natToBytesRev n) :
    48 ≤ c ∧ c ≤ 57 := by
  have aux : ∀ fuel m c, c ∈ natToBytesRevAux fuel m → 48 ≤ c ∧ c ≤ 57 := by
    intro fuel
    induction fuel with
    | zero =>
      intro m c hc
      match m with
      | 0 => simp [natToBytesRevAux] at hc
      | _ + 1 => simp [natToBytesRevAux] at hc
    | succ f ih =>
      intro m c hc
      match m with
      | 0 => simp [natToBytesRevAux] at hc
      | k + 1 =>
        rw [natToBytesRevAux] at hc
        rcases List.mem_cons.mp hc with h1 | h2
        · subst h1
          constructor
          · omega
          · have : (k + 1) % 10 < 10 := Nat.mod_lt _ (by norm_num)
            omega
        · exact ih _ _ h2
  exact aux n n c h

theorem mem_natToBytes {c n : Nat} (h : c ∈ natToBytes n) :
    48 ≤ c ∧ c ≤ 57 := by
  unfold natToBytes at h
  by_cases h0 : n = 0
  · simp [h0] at h
    omega
  · rw [if_neg h0, List.mem_reverse] at h
    exact mem_natToBytesRev h

theorem natToBytes_ne_nil (n : Nat) : natToBytes n ≠ [] := by
  unfold natToBytes
  by_cases h0 : n = 0
  · simp [h0]
  · rw [if_neg h0, natToBytesRev_eq n h0]
    simp

theorem parseNatLoop_nil (acc : Nat) : parseNatLoop acc [] = some acc := rfl

theorem parseNatLoop_cons (acc c : Nat) (rest : List Nat) :
    parseNatLoop acc (c :: rest) =
      if 48 ≤ c ∧ c ≤ 57 then parseNatLoop (acc * 10 + (c - 48)) rest else none := rfl

theorem parseNatLoop_append (acc : Nat) (xs ys : List Nat) :
    parseNatLoop acc (xs ++ ys) =
      (parseNatLoop acc xs).bind (fun a => parseNatLoop a ys) := by
  induction xs generalizing acc with
  | nil => rfl
  | cons c rest ih =>
    show parseNatLoop acc (c :: (rest ++ ys)) = _
    rw [parseNatLoop_cons]
    by_cases hc : 48 ≤ c ∧ c ≤ 57
    · rw [if_pos hc, ih]
      conv_rhs => rw [parseNatLoop_cons, if_pos hc]
    · rw [if_neg hc]
      conv_rhs => rw [parseNatLoop_cons, if_neg hc]
      rfl

theorem parseNatLoop_rev (n : Nat) (h : 0 < n) : ∀ acc,
    parseNatLoop acc (natToBytesRev n).reverse =
      some (acc * 10 ^ (natToBytesRev n).length + n) := by
  induction n using Nat.strong_induction_on with
  | _ n ih =>
    intro acc
    rw [natToBytesRev_eq n (Nat.pos_iff_ne_zero.mp h)]
    by_cases hq : n / 10 = 0
    · have hn10 : n < 10 := by omega
      rw [hq]
      have hrev0 : natToBytesRev 0 = [] := rfl
      rw [hrev0]
      simp only [List.reverse_cons, List.reverse_nil, List.nil_append,
        List.length_cons, List.length_nil]
      rw [parseNatLoop_cons]
      have hb : 48 ≤ 48 + n % 10 ∧ 48 + n % 10 ≤ 57 := by
        have : n % 10 < 10 := Nat.mod_lt _ (by norm_num)
        omega
      rw [if_pos hb, parseNatLoop_nil]
      have h48 : 48 + n % 10 - 48 = n % 10 := by omega
      have hmod : n % 10 = n := Nat.mod_eq_of_lt hn10
      rw [h48, hmod, zero_add, pow_one]
    · have hqpos : 0 < n / 10 := Nat.pos_iff_ne_zero.mpr hq
      have hlt : n / 10 < n := Nat.div_lt_self h (by norm_num)
      rw [List.reverse_cons, parseNatLoop_append]
      rw [ih (n / 10) hlt hqpos acc, Option.some_bind]
      rw [parseNatLoop_cons]
      have hb : 48 ≤ 48 + n % 10 ∧ 48 + n % 10 ≤ 57 := by
        have : n % 10 < 10 := Nat.mod_lt _ (by norm_num)
        omega
      rw [if_pos hb, parseNatLoop_nil]
      simp only [List.length_cons, Option.some.injEq]
      have h48 : 48 + n % 10 - 48 = n % 10 := by omega
      have hdm : n / 10 * 10 + n % 10 = n := by omega
      rw [h48, pow_succ]
      calc (acc * 10 ^ (natToBytesRev (n / 10)).length + n / 10) * 10 + n % 10
          = acc * (10 ^ (natToBytesRev (n / 10)).length * 10) + (n / 10 * 10 + n % 10) := by ring
        _ = acc * (10 ^ (natToBytesRev (n / 10)).length * 10) + n := by rw [hdm]

theorem parseNatLoop_natToBytes (n : Nat) :
    parseNatLoop 0 (natToBytes n) = some n := by
  by_cases h0 : n = 0
  · subst h0
    rfl
  · unfold natToBytes
    rw [if_neg h0, parseNatLoop_rev n (Nat.pos_iff_ne_zero.mpr h0) 0]
    simp

theorem atoi_intToBytes (z : Int) : atoi (intToBytes z) = some z := by
  unfold intToBytes
  by_cases hz : z < 0
  · rw [if_pos hz]
    rcases hcons : natToBytes z.natAbs with _ | ⟨c, rest⟩
    · exact absurd hcons (natToBytes_ne_nil _)
    · rw [atoi_cons]
      rw [if_pos rfl, if_neg (by simp), ← hcons, parseNatLoop_natToBytes]
      simp only [Option.map_some', Option.some.injEq]
      omega
  · rw [if_neg hz]
    rcases hcons : natToBytes z.natAbs with _ | ⟨c, rest⟩
    · exact absurd hcons (natToBytes_ne_nil _)
    · have hc : 48 ≤ c ∧ c ≤ 57 := mem_natToBytes (hcons ▸ List.mem_cons_self c rest)
      have h45 : ¬(c = 45) := by omega
      have h43 : ¬(c = 43) := by omega
      rw [atoi_cons, if_neg h45, if_neg h43, ← hcons, parseNatLoop_natToBytes]
      simp only [Option.map_some', Option.some.injEq]
      omega

theorem mem_intToBytes {c : Nat} {z : Int} (h : c ∈ intToBytes z) :
    c = 45 ∨ (48 ≤ c ∧ c ≤ 57) := by
  unfold intToBytes at h
  by_cases hz : z < 0
  · rw [if_pos hz] at h
    rcases List.mem_cons.mp h with h1 | h2
    · exact Or.inl h1
    · exact Or.inr (mem_natToBytes h2)
  · rw [if_neg hz] at h
    exact Or.inr (mem_natToBytes h)

theorem intToBytes_ne_nil (z : Int) : intToBytes z ≠ [] := by
  unfold intToBytes
  by_cases hz : z < 0
  · simp [hz]
  · rw [if_neg hz]
    exact natToBytes_ne_nil _

theorem intToBytes_getD_one_ne_amp (z : Int) : (intToBytes z).getD 1 0 ≠ 38 := by
  rcases hb : intToBytes z with _ | ⟨c, rest⟩
  · simp [List.getD]
  · rcases rest with _ | ⟨c2, rest2⟩
    · simp [List.getD]
    · have hmem : c2 ∈ intToBytes z := by rw [hb]; simp
      rcases mem_intToBytes hmem with h1 | h2
      · simp [List.getD, h1]
      · simp only [List.getD_cons_succ, List.getD_cons_zero]
        omega

/-! ## strRecord: previous-epoch text buffer (decoder.go) -/

/-- `strRecord` stores the previous epoch record string (decoder.go). -/
structure strRecord where
  buf : List Nat
deriving DecidableEq

/-- The overlay loop of `strRecord.Decode` (decoder.go, the `for i, c := range b`
loop): a space byte keeps the buffer byte, `&` clears it to a space, anything
else overwrites. -/
def overlayLoop : List Nat → Nat → List Nat → List Nat
  | buf, _, [] => buf
  | buf, i, c :: rest =>
    if c = 32 then overlayLoop buf (i + 1) rest
    else if c = 38 then overlayLoop (buf.set i 32) (i + 1) rest
    else overlayLoop (buf.set i c) (i + 1) rest

/-- `strRecord.Decode` (decoder.go): empty patch is a no-op; otherwise the
buffer is zero-extended to the patch length and the overlay rule is applied. -/
def strRecord.Decode (e : strRecord) (s : List Nat) : strRecord :=
  if s.length = 0 then e
  else
    let base := if s.length > e.buf.length
      then e.buf ++ List.replicate (s.length - e.buf.length) 0
      else e.buf
    ⟨overlayLoop base 0 s⟩

theorem overlayLoop_length (p : List Nat) :
    ∀ (buf : List Nat) (i : Nat), (overlayLoop buf i p).length = buf.length := by
  induction p with
  | nil => intro buf i; rfl
  | cons c rest ih =>
    intro buf i
    show (overlayLoop buf i (c :: rest)).length = _
    rw [overlayLoop]
    by_cases h32 : c = 32
    · rw [if_pos h32, ih]
    · rw [if_neg h32]
      by_cases h38 : c = 38
      · rw [if_pos h38, ih, List.length_set]
      · rw [if_neg h38, ih, List.length_set]

theorem overlayLoop_getElem? (p : List Nat) :
    ∀ (buf : List Nat) (i0 : Nat), i0 + p.length ≤ buf.length →
      ∀ k, (overlayLoop buf i0 p)[k]? =
        if i0 ≤ k ∧ k < i0 + p.length then
          (if p.getD (k - i0) 0 = 32 then buf[k]?
           else if p.getD (k - i0) 0 = 38 then some 32
           else some (p.getD (k - i0) 0))
        else buf[k]? := by
  induction p with
  | nil =>
    intro buf i0 _ k
    have hfalse : ¬(i0 ≤ k ∧ k < i0 + ([] : List Nat).length) := by
      simp only [List.length_nil]
      omega
    rw [if_neg hfalse]
    rfl
  | cons c rest ih =>
    intro buf i0 hlen k
    have hi0 : i0 < buf.length := by
      simp only [List.length_cons] at hlen
      omega
    have hrest : (i0 + 1) + rest.length ≤ buf.length := by
      simp only [List.length_cons] at hlen
      omega
    show (overlayLoop buf i0 (c :: rest))[k]? = _
    rw [overlayLoop]
    by_cases h32 : c = 32
    · rw [if_pos h32, ih buf (i0 + 1) hrest k]
      by_cases hk : i0 + 1 ≤ k ∧ k < i0 + 1 + rest.length
      · rw [if_pos hk]
        have hk2 : i0 ≤ k ∧ k < i0 + (c :: rest).length := by
          simp only [List.length_cons]
          omega
        rw [if_pos hk2]
        have hget : (c :: rest).getD (k - i0) 0 = rest.getD (k - (i0 + 1)) 0 := by
          have : k - i0 = (k - (i0 + 1)) + 1 := by omega
          rw [this, List.getD_cons_succ]
        rw [hget]
      · rw [if_neg hk]
        by_cases hk2 : i0 ≤ k ∧ k < i0 + (c :: rest).length
        · have hkeq : k = i0 := by
            simp only [List.length_cons] at hk2
            omega
          rw [if_pos hk2, hkeq]
          have : (c :: rest).getD (i0 - i0) 0 = c := by
            simp
          rw [this, h32, if_pos rfl]
        · rw [if_neg hk2]
    · rw [if_neg h32]
      by_cases h38 : c = 38
      · rw [if_pos h38]
        have hsetlen : (i0 + 1) + rest.length ≤ (buf.set i0 32).length := by
          rw [List.length_set]
          exact hrest
        rw [ih (buf.set i0 32) (i0 + 1) hsetlen k]
        by_cases hk : i0 + 1 ≤ k ∧ k < i0 + 1 + rest.length
        · rw [if_pos hk]
          have hk2 : i0 ≤ k ∧ k < i0 + (c :: rest).length := by
            simp only [List.length_cons]
            omega
          rw [if_pos hk2]
          have hget : (c :: rest).getD (k - i0) 0 = rest.getD (k - (i0 + 1)) 0 := by
            have : k - i0 = (k - (i0 + 1)) + 1 := by omega
            rw [this, List.getD_cons_succ]
          rw [hget]
          have hne : i0 ≠ k := by omega
          rw [List.getElem?_set_ne hne]
        · rw [if_neg hk]
          by_cases hk2 : i0 ≤ k ∧ k < i0 + (c :: rest).length
          · have hkeq : k = i0 := by
              simp only [List.length_cons] at hk2
              omega
            subst hkeq
            rw [if_pos hk2]
            have : (c :: rest).getD (k - k) 0 = c := by
              simp
            rw [this, h38]
            rw [if_neg (by omega), if_pos rfl]
            exact List.getElem?_set_self hi0
          · rw [if_neg hk2]
            have hne : i0 ≠ k := by
              simp only [List.length_cons] at hk2
              omega
            rw [List.getElem?_set_ne hne]
      · rw [if_neg h38]
        have hsetlen : (i0 + 1) + rest.length ≤ (buf.set i0 c).length := by
          rw [List.length_set]
          exact hrest
        rw [ih (buf.set i0 c) (i0 + 1) hsetlen k]
        by_cases hk : i0 + 1 ≤ k ∧ k < i0 + 1 + rest.length
        · rw [if_pos hk]
          have hk2 : i0 ≤ k ∧ k < i0 + (c :: rest).length := by
            simp only [List.length_cons]
            omega
          rw [if_pos hk2]
          have hget : (c :: rest).getD (k - i0) 0 = rest.getD (k - (i0 + 1)) 0 := by
            have : k - i0 = (k - (i0 + 1)) + 1 := by omega
            rw [this, List.getD_cons_succ]
          rw [hget]
          have hne : i0 ≠ k := by omega
          rw [List.getElem?_set_ne hne]
        · rw [if_neg hk]
          by_cases hk2 : i0 ≤ k ∧ k < i0 + (c :: rest).length
          · have hkeq : k = i0 := by
              simp only [List.length_cons] at hk2
              omega
            subst hkeq
            rw [if_pos hk2]
            have hc : (c :: rest).getD (k - k) 0 = c := by
              simp
            rw [hc]
            rw [if_neg h32, if_neg h38]
            exact List.getElem?_set_self hi0
          · rw [if_neg hk2]
            have hne : i0 ≠ k := by
              simp only [List.length_cons] at hk2
              omega
            rw [List.getElem?_set_ne hne]

/-- The zero-extended base buffer used by `strRecord.Decode`. -/
def extBuf (e : strRecord) (p : List Nat) : List Nat :=
  if p.length > e.buf.length
    then e.buf ++ List.replicate (p.length - e.buf.length) 0
    else e.buf

theorem extBuf_length (e : strRecord) (p : List Nat) :
    (extBuf e p).length = max e.buf.length p.length := by
  unfold extBuf
  by_cases h : p.length > e.buf.length
  · rw [if_pos h]
    simp only [List.length_append, List.length_replicate]
    omega
  · rw [if_neg h]
    omega

theorem strRecord_Decode_eq (e : strRecord) (p : List Nat) (hp : p ≠ []) :
    e.Decode p = ⟨overlayLoop (extBuf e p) 0 p⟩ := by
  unfold strRecord.Decode
  rw [if_neg (by simpa using hp)]
  rfl

/-- C2: for every strRecord and non-empty patch `p`, `Decode p` first ensures
the buffer is at least `p.length` long (the result has length
`max (old length) (p.length)`), and then, position by position below
`p.length`: a space byte leaves the (extended) buffer byte unchanged, an `&`
byte sets it to a space, and any other byte overwrites it. -/
theorem C2_strRecord_Decode_overlay (e : strRecord) (p : List Nat) (hp : p ≠ []) :
    (e.Decode p).buf.length = max e.buf.length p.length ∧
    (∀ i, i < p.length →
      (e.Decode p).buf[i]? =
        (if p.getD i 0 = 32 then (extBuf e p)[i]?
         else if p.getD i 0 = 38 then some 32
         else some (p.getD i 0))) := by
  have hlen2 : 0 + p.length ≤ (extBuf e p).length := by
    rw [extBuf_length]
    omega
  rw [strRecord_Decode_eq e p hp]
  constructor
  · show (overlayLoop (extBuf e p) 0 p).length = _
    rw [overlayLoop_length, extBuf_length]
  · intro i hi
    show (overlayLoop (extBuf e p) 0 p)[i]? = _
    rw [overlayLoop_getElem? p (extBuf e p) 0 hlen2 i,
      if_pos ⟨Nat.zero_le i, by omega⟩]
    simp only [Nat.sub_zero]

/-- Witness for C2: patching the two-byte buffer of `xy` with `&&&&` resets
the first four bytes (the extended buffer) to spaces. -/
theorem C2_witness :
    (strToBytes (r"&&&&") ≠ []) ∧
    (((strRecord.mk (strToBytes (r"xy"))).Decode (strToBytes (r"&&&&"))).buf.length =
        max (strRecord.mk (strToBytes (r"xy"))).buf.length (strToBytes (r"&&&&")).length ∧
      (∀ i, i < (strToBytes (r"&&&&")).length →
        ((strRecord.mk (strToBytes (r"xy"))).Decode (strToBytes (r"&&&&"))).buf[i]? =
          (if (strToBytes (r"&&&&")).getD i 0 = 32
            then (extBuf (strRecord.mk (strToBytes (r"xy"))) (strToBytes (r"&&&&")))[i]?
           else if (strToBytes (r"&&&&")).getD i 0 = 38 then some 32
           else some ((strToBytes (r"&&&&")).getD i 0)))) :=
  ⟨by decide,
    C2_strRecord_Decode_overlay (strRecord.mk (strToBytes (r"xy"))) (strToBytes (r"&&&&"))
      (by decide)⟩

/-! ## diffRecord: per-observable integer-difference state (decoder.go) -/

/-- `diffRecord` stores differenced data (decoder.go): the difference order,
the latest extracted value, the stack of higher-order differences and the
missing-data flag. Go `int` is modelled as unbounded `Int`. -/
structure diffRecord where
  MaxDiff : Int
  refData : Int
  diffData : List Int
  missing : Bool
deriving DecidableEq

/-- `integ` (decoder.go): adjacent sums, `a[i-1] = d[i] + d[i-1]` for
`i = len-1 .. 1`. -/
def integ (d : List Int) : List Int :=
  (List.range (d.length - 1)).map (fun i => d.getD (i + 1) 0 + d.getD i 0)

/-- The Go loop `for len(dv) > 1 { dv = integ(dv) }` in `diffRecord.Decode`,
embedded with fuel (the list length strictly decreases, so `dv.length` fuel
is enough). -/
def integAllAux : Nat → List Int → List Int
  | 0, dv => dv
  | fuel + 1, dv => if dv.length > 1 then integAllAux fuel (integ dv) else dv

def integAll (dv : List Int) : List Int := integAllAux dv.length dv

/-- The in-place prefix-sum collapse `for i := m; i > 1; i-- { d[i-1] += d[i-2] }`
of `diffRecord.Decode` (decoder.go), embedded with fuel (the counter strictly
decreases, so `i.toNat` fuel is enough). -/
def collapseLoopAux : Nat → List Int → Int → List Int
  | 0, d, _ => d
  | fuel + 1, d, i =>
    if i > 1 then
      collapseLoopAux fuel
        (d.set (i - 1).toNat (d.getD (i - 1).toNat 0 + d.getD (i - 2).toNat 0)) (i - 1)
    else d

def collapseLoop (d : List Int) (i : Int) : List Int := collapseLoopAux i.toNat d i

inductive diffErr where
  | parseFail
deriving DecidableEq

/-- `diffRecord.Decode` (decoder.go lines 147-235). Case 1 (token of length
> 2 with `&` at index 1) re-initializes; case 2 (non-empty token) appends the
parsed value, collapses the stack when it exceeds `MaxDiff`, integrates it to
a first-order delta and adds that to `refData`; case 3 (empty token) marks the
observable missing. Go's `dv[0]` read of an empty slice (reachable only for
`MaxDiff ≤ 0`, a runtime panic in Go) is modelled by `getD`'s default 0. -/
def diffRecord.Decode (r : diffRecord) (b : List Nat) : diffRecord × Option diffErr :=
  if b.length > 2 ∧ b.getD 1 0 = 38 then
    match atoi [b.getD 0 0], atoi (b.drop 2) with
    | some diffOrder, some ref =>
      ({ MaxDiff := diffOrder, refData := ref, diffData := [], missing := false }, none)
    | _, _ => (r, some .parseFail)
  else if b.length > 0 then
    match atoi b with
    | none => ({ r with missing := true }, some .parseFail)
    | some intNumber =>
      let dd0 := r.diffData ++ [intNumber]
      let dd := if (dd0.length : Int) > r.MaxDiff
        then (collapseLoop dd0 r.MaxDiff).drop 1
        else dd0
      ({ r with diffData := dd, refData := r.refData + (integAll dd).getD 0 0,
                missing := false }, none)
  else
    ({ r with missing := true }, none)

/-- Folding `diffRecord.Decode` over a sequence of tokens (the per-epoch calls
made by the epoch engine). -/
def feed (r : diffRecord) (ts : List (List Nat)) : diffRecord :=
  ts.foldl (fun r t => (r.Decode t).1) r

theorem collapseLoopAux_length :
    ∀ (fuel : Nat) (d : List Int) (i : Int), (collapseLoopAux fuel d i).length = d.length := by
  intro fuel
  induction fuel with
  | zero => intro d i; rfl
  | succ f ih =>
    intro d i
    show (collapseLoopAux (f + 1) d i).length = _
    rw [collapseLoopAux]
    by_cases h : i > 1
    · rw [if_pos h, ih, List.length_set]
    · rw [if_neg h]

theorem collapseLoop_length (d : List Int) (i : Int) :
    (collapseLoop d i).length = d.length := collapseLoopAux_length _ _ _

theorem atoi_single_nonneg {c : Nat} {v : Int} (h : atoi [c] = some v) : 0 ≤ v := by
  rw [atoi_cons] at h
  by_cases h45 : c = 45
  · rw [if_pos h45] at h
    simp at h
  · rw [if_neg h45] at h
    by_cases h43 : c = 43
    · rw [if_pos h43] at h
      simp at h
    · rw [if_neg h43] at h
      rcases hpn : parseNatLoop 0 [c] with _ | n
      · rw [hpn] at h
        simp at h
      · rw [hpn] at h
        simp only [Option.map_some', Option.some.injEq] at h
        rw [← h]
        exact Int.ofNat_nonneg n

theorem diffRecord_Decode_init (r : diffRecord) (b : List Nat) (d0 ref : Int)
    (hlen : b.length > 2) (hamp : b.getD 1 0 = 38)
    (hdig : atoi [b.getD 0 0] = some d0) (href : atoi (b.drop 2) = some ref) :
    r.Decode b = (⟨d0, ref, [], false⟩, none) := by
  unfold diffRecord.Decode
  rw [if_pos ⟨hlen, hamp⟩, hdig, href]

theorem diffRecord_Decode_updateVal (r : diffRecord) (b : List Nat) (w : Int)
    (hno : ¬(b.length > 2 ∧ b.getD 1 0 = 38)) (hpos : b.length > 0)
    (hatoi : atoi b = some w) :
    r.Decode b =
      ({ r with
          diffData :=
            if ((r.diffData ++ [w]).length : Int) > r.MaxDiff
              then (collapseLoop (r.diffData ++ [w]) r.MaxDiff).drop 1
              else r.diffData ++ [w],
          refData := r.refData +
            (integAll (if ((r.diffData ++ [w]).length : Int) > r.MaxDiff
              then (collapseLoop (r.diffData ++ [w]) r.MaxDiff).drop 1
              else r.diffData ++ [w])).getD 0 0,
          missing := false }, none) := by
  unfold diffRecord.Decode
  rw [if_neg hno, if_pos hpos, hatoi]

/-- The C5 invariant: the stack never exceeds the difference order. -/
def diffInv (r : diffRecord) : Prop := (r.diffData.length : Int) ≤ r.MaxDiff

theorem diffRecord_Decode_preserves_inv (r : diffRecord) (t : List Nat)
    (h : diffInv r) : diffInv (r.Decode t).1 := by
  unfold diffRecord.Decode
  by_cases hinit : t.length > 2 ∧ t.getD 1 0 = 38
  · rw [if_pos hinit]
    rcases hd : atoi [t.getD 0 0] with _ | d0
    · rcases hr : atoi (t.drop 2) with _ | ref
      · exact h
      · exact h
    · rcases hr : atoi (t.drop 2) with _ | ref
      · exact h
      · show diffInv ⟨d0, ref, [], false⟩
        unfold diffInv
        simp only [List.length_nil, Nat.cast_zero]
        exact atoi_single_nonneg hd
  · rw [if_neg hinit]
    by_cases hpos : t.length > 0
    · rw [if_pos hpos]
      rcases ha : atoi t with _ | w
      · exact h
      · show diffInv { r with diffData := _, refData := _, missing := false }
        unfold diffInv at h ⊢
        by_cases hc : ((r.diffData ++ [w]).length : Int) > r.MaxDiff
        · rw [if_pos hc]
          simp only [List.length_drop, collapseLoop_length, List.length_append,
            List.length_cons, List.length_nil]
          push_cast
          omega
        · rw [if_neg hc]
          simp only [List.length_append, List.length_cons, List.length_nil] at hc ⊢
          push_cast at hc ⊢
          omega
    · rw [if_neg hpos]
      exact h

theorem feed_preserves_inv (ts : List (List Nat)) :
    ∀ (r : diffRecord), diffInv r → diffInv (feed r ts) := by
  induction ts with
  | nil => intro r h; exact h
  | cons t rest ih =>
    intro r h
    show diffInv (feed ((r.Decode t).1) rest)
    exact ih _ (diffRecord_Decode_preserves_inv r t h)

/-- C5: for every diffRecord initialized by a token of length ≥ 3 with `&` at
index 1 (and well-formed order digit and reference so that the
initialization actually takes effect), after any finite sequence of further
`Decode` calls — updates, empty tokens, failed parses or re-initializations —
the invariant `0 ≤ len(diffData) ≤ MaxDiff` holds. -/
theorem C5_diffData_length_invariant (r0 : diffRecord) (t : List Nat)
    (ts : List (List Nat)) (d0 ref : Int)
    (hlen : t.length > 2) (hamp : t.getD 1 0 = 38)
    (hdig : atoi [t.getD 0 0] = some d0) (href : atoi (t.drop 2) = some ref) :
    0 ≤ ((feed (r0.Decode t).1 ts).diffData.length : Int) ∧
    ((feed (r0.Decode t).1 ts).diffData.length : Int) ≤ (feed (r0.Decode t).1 ts).MaxDiff := by
  constructor
  · exact Int.ofNat_nonneg _
  · apply feed_preserves_inv
    rw [diffRecord_Decode_init r0 t d0 ref hlen hamp hdig href]
    show diffInv ⟨d0, ref, [], false⟩
    unfold diffInv
    simp only [List.length_nil, Nat.cast_zero]
    exact atoi_single_nonneg hdig

/-! ## C1: reconstruction identity for the difference decoder -/

/-- Backward differences of a raw integer sequence `v` (epochs are 1-based):
`hatDiff v 0 i = v i` and `hatDiff v (o+1) i = hatDiff v o i - hatDiff v o (i-1)`.
This is the claim's difference table (`d`, `dd`, `ddd`, ...). -/
def hatDiff (v : Nat → Int) : Nat → Nat → Int
  | 0, i => v i
  | o + 1, i => hatDiff v o i - hatDiff v o (i - 1)

/-- The stack of kept difference orders: orders `1..o` at epochs `b..b+o-1`
(the shape `[d_k, dd_(k+1), ..., d^(o)_(k+o-1)]` of the spec). -/
def stackList (v : Nat → Int) (o b : Nat) : List Int :=
  (List.range o).map (fun j => hatDiff v (j + 1) (b + j))

/-- Initialization token of the claim: order digit, `&`, reference value. -/
def initToken (m : Nat) (ref : Int) : List Nat := (48 + m) :: 38 :: intToBytes ref

/-- The difference token for epoch `i ≥ 2` at file order `m`: the
`min(i-1,m)`-th order difference of the raw values, rendered in decimal. -/
def diffToken (v : Nat → Int) (m i : Nat) : List Nat :=
  intToBytes (hatDiff v (min (i - 1) m) i)

/-- CRINEX encoding of `v_1..v_n` at difference order `m`: the initialization
token carrying `v 1` followed by the difference tokens for epochs `2..n`. -/
def encodeTokens (v : Nat → Int) (m n : Nat) : List (List Nat) :=
  initToken m (v 1) :: (List.range (n - 1)).map (fun k => diffToken v m (k + 2))

/-- The first `i` tokens of the encoding (the initialization token plus the
difference tokens for epochs `2..i`). -/
def tokensUpTo (v : Nat → Int) (m i : Nat) : List (List Nat) :=
  initToken m (v 1) :: (List.range (i - 1)).map (fun k => diffToken v m (k + 2))

theorem getD_map_range (f : Nat → Int) (n i : Nat) (h : i < n) :
    ((List.range n).map f).getD i 0 = f i := by
  rw [List.getD_eq_getElem?_getD, List.getElem?_map, List.getElem?_range h]
  rfl

theorem length_integ (d : List Int) : (integ d).length = d.length - 1 := by
  simp [integ]

theorem integ_map_range (o : Nat) (f : Nat → Int) :
    integ ((List.range (o + 1)).map f) =
      (List.range o).map (fun j => f (j + 1) + f j) := by
  unfold integ
  rw [List.length_map, List.length_range]
  simp only [Nat.add_sub_cancel]
  apply List.map_congr_left
  intro j hj
  have hjo : j < o := List.mem_range.mp hj
  rw [getD_map_range f (o + 1) (j + 1) (by omega), getD_map_range f (o + 1) j (by omega)]

theorem stackList_length (v : Nat → Int) (o b : Nat) :
    (stackList v o b).length = o := by
  simp [stackList]

theorem stackList_succ (v : Nat → Int) (o b : Nat) :
    stackList v (o + 1) b = stackList v o b ++ [hatDiff v (o + 1) (b + o)] := by
  unfold stackList
  rw [List.range_succ, List.map_append]
  rfl

theorem hatDiff_step (v : Nat → Int) (j b : Nat) :
    hatDiff v (j + 1) (b + j) + hatDiff v (j + 2) (b + j + 1) =
      hatDiff v (j + 1) (b + j + 1) := by
  have h2 : hatDiff v (j + 2) (b + j + 1) =
      hatDiff v (j + 1) (b + j + 1) - hatDiff v (j + 1) (b + j + 1 - 1) := rfl
  have h3 : b + j + 1 - 1 = b + j := by omega
  rw [h2, h3]
  ring

theorem integ_stack (v : Nat → Int) (o b : Nat) :
    integ (stackList v (o + 1) b) = stackList v o (b + 1) := by
  unfold stackList
  rw [integ_map_range]
  apply List.map_congr_left
  intro j hj
  have hjo : j < o := List.mem_range.mp hj
  have h1 : b + (j + 1) = b + j + 1 := by omega
  have h2 : b + 1 + j = b + j + 1 := by omega
  rw [h1, h2, add_comm (hatDiff v (j + 1 + 1) (b + j + 1)) (hatDiff v (j + 1) (b + j))]
  exact hatDiff_step v j b

theorem integAll_single (dv : List Int) (h : dv.length = 1) : integAll dv = dv := by
  unfold integAll
  rw [h]
  show (if dv.length > 1 then integAllAux 0 (integ dv) else dv) = dv
  rw [if_neg (by omega)]

theorem integAll_step (dv : List Int) (h : dv.length > 1) :
    integAll dv = integAll (integ dv) := by
  obtain ⟨f, hf⟩ : ∃ f, dv.length = f + 1 := ⟨dv.length - 1, by omega⟩
  show integAllAux dv.length dv = _
  rw [hf]
  show (if dv.length > 1 then integAllAux f (integ dv) else dv) = _
  rw [if_pos h]
  have hlen : (integ dv).length = f := by
    rw [length_integ]
    omega
  unfold integAll
  rw [hlen]

theorem integAll_stack (v : Nat → Int) (b : Nat) :
    ∀ o, 1 ≤ o → integAll (stackList v o b) = [hatDiff v 1 (b + o - 1)] := by
  intro o
  induction o generalizing b with
  | zero => omega
  | succ o ih =>
    intro _
    by_cases ho : o = 0
    · subst ho
      have h1 : stackList v 1 b = [hatDiff v 1 b] := by
        unfold stackList
        rfl
      rw [h1, integAll_single _ (by rfl)]
      have : b + 1 - 1 = b := by omega
      rw [this]
    · have ho1 : 1 ≤ o := Nat.pos_iff_ne_zero.mpr ho
      rw [integAll_step _ (by rw [stackList_length]; omega), integ_stack v o b,
        ih (b + 1) ho1]
      have : b + 1 + o - 1 = b + (o + 1) - 1 := by omega
      rw [this]

/-- Proof-side structural form of the collapse loop counter (the Go loop
`for i := m; i > 1; i--` viewed at natural-number counters). -/
def collapseNat : Nat → List Int → List Int
  | 0, d => d
  | 1, d => d
  | k + 2, d => collapseNat (k + 1) (d.set (k + 1) (d.getD (k + 1) 0 + d.getD k 0))

theorem collapseLoopAux_eq_nat :
    ∀ (k : Nat), ∀ (fuel : Nat) (d : List Int), k ≤ fuel →
      collapseLoopAux fuel d (k : Int) = collapseNat k d := by
  intro k
  induction k using Nat.strong_induction_on with
  | _ k ih =>
    match k with
    | 0 =>
      intro fuel d _
      match fuel with
      | 0 => rfl
      | f + 1 =>
        show (if ((0 : Nat) : Int) > 1 then _ else d) = d
        rw [if_neg (by norm_num)]
    | 1 =>
      intro fuel d hf
      match fuel with
      | f + 1 =>
        show (if ((1 : Nat) : Int) > 1 then _ else d) = d
        rw [if_neg (by norm_num)]
    | k + 2 =>
      intro fuel d hf
      match fuel, hf with
      | f + 1, hf =>
        show (if (((k + 2 : Nat) : Int) > 1) then
            collapseLoopAux f
              (d.set ((((k + 2 : Nat) : Int)) - 1).toNat
                (d.getD ((((k + 2 : Nat) : Int)) - 1).toNat 0 +
                  d.getD ((((k + 2 : Nat) : Int)) - 2).toNat 0))
              ((((k + 2 : Nat) : Int)) - 1)
          else d) = _
        rw [if_pos (by push_cast; omega)]
        have e1 : (((k + 2 : Nat) : Int)) - 1 = ((k + 1 : Nat) : Int) := by push_cast; ring
        have e2 : ((((k + 2 : Nat) : Int)) - 1).toNat = k + 1 := by omega
        have e3 : ((((k + 2 : Nat) : Int)) - 2).toNat = k := by omega
        rw [e2, e3, e1]
        exact ih (k + 1) (by omega) f _ (by omega)

theorem collapseLoop_eq_nat (d : List Int) (k : Nat) :
    collapseLoop d (k : Int) = collapseNat k d := by
  unfold collapseLoop
  have h : ((k : Int)).toNat = k := by omega
  rw [h]
  exact collapseLoopAux_eq_nat k k d le_rfl

theorem getD_set_ne (l : List Int) (i j : Nat) (x : Int) (h : i ≠ j) :
    (l.set i x).getD j 0 = l.getD j 0 := by
  rw [List.getD_eq_getElem?_getD, List.getElem?_set_ne h, ← List.getD_eq_getElem?_getD]

theorem collapseNat_getElem? :
    ∀ (k : Nat) (d : List Int), k ≤ d.length → ∀ j,
      (collapseNat k d)[j]? =
        if 1 ≤ j ∧ j < k then some (d.getD j 0 + d.getD (j - 1) 0) else d[j]? := by
  intro k
  induction k using Nat.strong_induction_on with
  | _ k ih =>
    match k with
    | 0 =>
      intro d _ j
      rw [if_neg (by omega)]
      rfl
    | 1 =>
      intro d _ j
      rw [if_neg (by omega)]
      rfl
    | k + 2 =>
      intro d hk j
      show (collapseNat (k + 1) (d.set (k + 1) (d.getD (k + 1) 0 + d.getD k 0)))[j]? = _
      rw [ih (k + 1) (by omega) _ (by rw [List.length_set]; omega) j]
      by_cases h1 : 1 ≤ j ∧ j < k + 1
      · rw [if_pos h1, if_pos (by omega)]
        rw [getD_set_ne _ _ _ _ (by omega), getD_set_ne _ _ _ _ (by omega)]
      · rw [if_neg h1]
        by_cases h2 : j = k + 1
        · subst h2
          rw [if_pos (by omega)]
          rw [List.getElem?_set_self (by omega)]
          have : k + 1 - 1 = k := by omega
          rw [this]
        · rw [if_neg (by omega), List.getElem?_set_ne (by omega)]

theorem getD_take (l : List Int) (n i : Nat) (h : i < n) :
    (l.take n).getD i 0 = l.getD i 0 := by
  rw [List.getD_eq_getElem?_getD, List.getD_eq_getElem?_getD, List.getElem?_take,
    if_pos h]

theorem integ_getElem? (d : List Int) (j : Nat) (h : j < d.length - 1) :
    (integ d)[j]? = some (d.getD (j + 1) 0 + d.getD j 0) := by
  unfold integ
  rw [List.getElem?_map, List.getElem?_range h]
  rfl

/-- The collapse loop followed by `drop 1` (`r.diffData = r.diffData[1:]`)
turns `[x_0, ..., x_m]` into the adjacent sums of `x_0..x_(m-1)` followed by
the untouched `x_m`. -/
theorem collapse_drop_one (d : List Int) (m : Nat) (hm : 1 ≤ m)
    (hlen : d.length = m + 1) :
    (collapseLoop d (m : Int)).drop 1 = integ (d.take m) ++ d.drop m := by
  rw [collapseLoop_eq_nat]
  apply List.ext_getElem?
  intro j
  rw [List.getElem?_drop]
  rw [collapseNat_getElem? m d (by omega) (1 + j)]
  have htake : (d.take m).length = m := by rw [List.length_take]; omega
  have hti : (integ (d.take m)).length = m - 1 := by rw [length_integ, htake]
  by_cases hj : j < m - 1
  · rw [if_pos (by omega)]
    rw [List.getElem?_append_left (by omega), integ_getElem? _ _ (by omega)]
    rw [getD_take _ _ _ (by omega), getD_take _ _ _ (by omega)]
    have : 1 + j = j + 1 := by omega
    rw [this]
    have : j + 1 - 1 = j := by omega
    rw [this]
  · by_cases hj2 : j = m - 1
    · subst hj2
      rw [if_neg (by omega)]
      rw [List.getElem?_append_right (by omega)]
      have h1 : m - 1 - (integ (d.take m)).length = 0 := by omega
      rw [h1, List.getElem?_drop]
      have h2 : 1 + (m - 1) = m := by omega
      have h3 : m + 0 = m := by omega
      rw [h2, h3]
    · have hjm : m ≤ j := by omega
      rw [if_neg (by omega)]
      rw [List.getElem?_eq_none (by omega), List.getElem?_eq_none]
      rw [List.length_append, hti, List.length_drop, hlen]
      omega

theorem diffRecord_Decode_intToBytes_fst (r : diffRecord) (w : Int) :
    (r.Decode (intToBytes w)).1 =
      { r with
          diffData :=
            if ((r.diffData ++ [w]).length : Int) > r.MaxDiff
              then (collapseLoop (r.diffData ++ [w]) r.MaxDiff).drop 1
              else r.diffData ++ [w],
          refData := r.refData +
            (integAll (if ((r.diffData ++ [w]).length : Int) > r.MaxDiff
              then (collapseLoop (r.diffData ++ [w]) r.MaxDiff).drop 1
              else r.diffData ++ [w])).getD 0 0,
          missing := false } := by
  rw [diffRecord_Decode_updateVal r (intToBytes w) w
    (fun hcontra => (intToBytes_getD_one_ne_amp w) hcontra.2)
    (List.length_pos.mpr (intToBytes_ne_nil w)) (atoi_intToBytes w)]

theorem atoi_digit (m : Nat) (h : m ≤ 9) : atoi [48 + m] = some (m : Int) := by
  rw [atoi_cons, if_neg (by omega), if_neg (by omega), parseNatLoop_cons,
    if_pos (by omega), parseNatLoop_nil]
  simp only [Option.map_some', Option.some.injEq]
  congr 1
  omega

theorem tokensUpTo_succ (v : Nat → Int) (m i : Nat) (hi : 1 ≤ i) :
    tokensUpTo v m (i + 1) = tokensUpTo v m i ++ [diffToken v m (i + 1)] := by
  unfold tokensUpTo
  have h1 : i + 1 - 1 = (i - 1) + 1 := by omega
  rw [h1, List.range_succ, List.map_append, ← List.cons_append]
  congr 1
  simp only [List.map_cons, List.map_nil]
  rw [show i - 1 + 2 = i + 1 by omega]

theorem feed_append_single (r : diffRecord) (ts : List (List Nat)) (t : List Nat) :
    feed r (ts ++ [t]) = ((feed r ts).Decode t).1 := by
  unfold feed
  rw [List.foldl_append]
  rfl

theorem diffToken_succ (v : Nat → Int) (m i : Nat) :
    diffToken v m (i + 1) = intToBytes (hatDiff v (min i m) (i + 1)) := by
  unfold diffToken
  rw [Nat.add_sub_cancel]

theorem hatDiff_one (v : Nat → Int) (i : Nat) :
    hatDiff v 1 (i + 1) = v (i + 1) - v i := by
  show hatDiff v 0 (i + 1) - hatDiff v 0 (i + 1 - 1) = _
  rw [Nat.add_sub_cancel]
  rfl

/-- The decoder state after the first `i` tokens of the C1 encoding: the
reference value is the raw value `v i` and the stack holds the kept
difference orders. -/
theorem C1_state (v : Nat → Int) (m : Nat) (hm1 : 1 ≤ m) (hm9 : m ≤ 9) :
    ∀ i, 1 ≤ i → ∀ r0 : diffRecord,
      feed r0 (tokensUpTo v m i) =
        ⟨(m : Int), v i, stackList v (min (i - 1) m) (i - min (i - 1) m + 1), false⟩ := by
  intro i hi
  induction i, hi using Nat.le_induction with
  | base =>
    intro r0
    show ((r0.Decode (initToken m (v 1))).1) = _
    unfold initToken
    rw [diffRecord_Decode_init r0 ((48 + m) :: 38 :: intToBytes (v 1)) (m : Int) (v 1)
      (by simp only [List.length_cons]
          have := List.length_pos.mpr (intToBytes_ne_nil (v 1))
          omega)
      (by simp [List.getD])
      (by show atoi [48 + m] = some (m : Int); exact atoi_digit m hm9)
      (by show atoi (intToBytes (v 1)) = _; exact atoi_intToBytes (v 1))]
    show (⟨(m : Int), v 1, [], false⟩ : diffRecord) = _
    have h0 : min (1 - 1) m = 0 := by simp
    rw [h0]
    rfl
  | succ i hi ih =>
    intro r0
    rw [tokensUpTo_succ v m i hi, feed_append_single, ih r0, diffToken_succ,
      diffRecord_Decode_intToBytes_fst]
    rw [show i + 1 - 1 = i by omega]
    have href : ∀ x : Int, v i + ([x].getD 0 0) = v i + x := fun _ => rfl
    by_cases hA : i ≤ m
    · -- growth phase: the stack is still shorter than MaxDiff
      have ho : min (i - 1) m = i - 1 := min_eq_left (by omega)
      have ho2 : min i m = i := min_eq_left hA
      have hb : i - (i - 1) + 1 = 2 := by omega
      rw [ho, ho2, hb]
      have hstack : stackList v (i - 1) 2 ++ [hatDiff v i (i + 1)] = stackList v i 2 := by
        have h := stackList_succ v (i - 1) 2
        rw [show (i - 1) + 1 = i by omega, show 2 + (i - 1) = i + 1 by omega] at h
        exact h.symm
      have hcond : ¬(((stackList v (i - 1) 2 ++ [hatDiff v i (i + 1)]).length : Int) > (m : Int)) := by
        rw [List.length_append, stackList_length]
        simp only [List.length_cons, List.length_nil]
        push_cast
        omega
      rw [if_neg hcond, hstack, integAll_stack v 2 i (by omega)]
      rw [show 2 + i - 1 = i + 1 by omega]
      rw [show (i + 1) - i + 1 = 2 by omega]
      have hval : v i + ([hatDiff v 1 (i + 1)].getD 0 0) = v (i + 1) := by
        simp only [List.getD_cons_zero]
        rw [hatDiff_one]
        ring
      rw [hval]
    · -- steady phase: the stack is full, collapse and slide
      have hBm : m + 1 ≤ i := by omega
      have ho : min (i - 1) m = m := min_eq_right (by omega)
      have ho2 : min i m = m := min_eq_right (by omega)
      rw [ho, ho2]
      have hlen0 : (stackList v m (i - m + 1) ++ [hatDiff v m (i + 1)]).length = m + 1 := by
        rw [List.length_append, stackList_length]
        rfl
      have hcond : ((stackList v m (i - m + 1) ++ [hatDiff v m (i + 1)]).length : Int) > (m : Int) := by
        rw [hlen0]
        push_cast
        omega
      rw [if_pos hcond]
      rw [collapse_drop_one _ m hm1 hlen0]
      have htk : (stackList v m (i - m + 1) ++ [hatDiff v m (i + 1)]).take m =
          stackList v m (i - m + 1) := by
        have h := List.take_left (stackList v m (i - m + 1)) [hatDiff v m (i + 1)]
        rwa [stackList_length] at h
      have hdr : (stackList v m (i - m + 1) ++ [hatDiff v m (i + 1)]).drop m =
          [hatDiff v m (i + 1)] := by
        have h := List.drop_left (stackList v m (i - m + 1)) [hatDiff v m (i + 1)]
        rwa [stackList_length] at h
      rw [htk, hdr]
      have hm' : m - 1 + 1 = m := by omega
      have hinteg : integ (stackList v m (i - m + 1)) = stackList v (m - 1) (i - m + 2) := by
        have h := integ_stack v (m - 1) (i - m + 1)
        rw [hm'] at h
        rw [h, show i - m + 1 + 1 = i - m + 2 by omega]
      rw [hinteg]
      have hslide : stackList v (m - 1) (i - m + 2) ++ [hatDiff v m (i + 1)] =
          stackList v m (i - m + 2) := by
        have h := stackList_succ v (m - 1) (i - m + 2)
        rw [hm', show i - m + 2 + (m - 1) = i + 1 by omega] at h
        exact h.symm
      rw [hslide, integAll_stack v (i - m + 2) m hm1]
      rw [show i - m + 2 + m - 1 = i + 1 by omega]
      rw [show (i + 1) - m + 1 = i - m + 2 by omega]
      have hval : v i + ([hatDiff v 1 (i + 1)].getD 0 0) = v (i + 1) := by
        simp only [List.getD_cons_zero]
        rw [hatDiff_one]
        ring
      rw [hval]

/-- C1: for every difference order `m` in 1..9 and every integer sequence,
feeding a diffRecord the CRINEX encoding of that sequence — an initialization
token with digit `m`, `&` at index 1 and reference `v 1`, followed by the
m-th-order difference tokens for `v 2 .. v n` — makes `refData` equal `v i`
exactly as an integer after the `i`-th token, for every `i` in `1..n`. -/
theorem C1_reconstruction (v : Nat → Int) (m n i : Nat) (r0 : diffRecord)
    (hm1 : 1 ≤ m) (hm9 : m ≤ 9) (hi1 : 1 ≤ i) (hin : i ≤ n) :
    (feed r0 ((encodeTokens v m n).take i)).refData = v i := by
  have htake : (encodeTokens v m n).take i = tokensUpTo v m i := by
    unfold encodeTokens tokensUpTo
    rw [show i = (i - 1) + 1 by omega, List.take_succ_cons]
    rw [← List.map_take, List.take_range]
    rw [show (i - 1) ⊓ (n - 1) = i - 1 by omega]
    rw [show i - 1 + 1 - 1 = i - 1 by omega]
  rw [htake, C1_state v m hm1 hm9 i hi1 r0]

/-- Witness for C1: the squares `1, 4, 9, 16, 25` encoded at order 3 are
reconstructed exactly; after the 4th token the reference value is 16. -/
theorem C1_witness :
    (1 ≤ 3 ∧ 3 ≤ 9 ∧ 1 ≤ 4 ∧ 4 ≤ 5) ∧
    (feed (diffRecord.mk 0 0 [] false)
        ((encodeTokens (fun j => (j : Int) * (j : Int)) 3 5).take 4)).refData = 16 :=
  ⟨⟨by norm_num, by norm_num, by norm_num, by norm_num⟩,
    (C1_reconstruction (fun j => (j : Int) * (j : Int)) 3 5 4 (diffRecord.mk 0 0 [] false)
      (by norm_num) (by norm_num) (by norm_num) (by norm_num)).trans (by norm_num)⟩

/-- Witness for C5 at a concrete initialization token and update sequence. -/
theorem C5_witness :
    ((strToBytes (r"3&123")).length > 2 ∧ (strToBytes (r"3&123")).getD 1 0 = 38 ∧
      atoi [(strToBytes (r"3&123")).getD 0 0] = some 3 ∧
      atoi ((strToBytes (r"3&123")).drop 2) = some 123) ∧
    (0 ≤ ((feed ((diffRecord.mk 0 0 [] false).Decode (strToBytes (r"3&123"))).1
        [strToBytes (r"5"), [], strToBytes (r"-4"), strToBytes (r"7")]).diffData.length : Int) ∧
      ((feed ((diffRecord.mk 0 0 [] false).Decode (strToBytes (r"3&123"))).1
        [strToBytes (r"5"), [], strToBytes (r"-4"), strToBytes (r"7")]).diffData.length : Int) ≤
      (feed ((diffRecord.mk 0 0 [] false).Decode (strToBytes (r"3&123"))).1
        [strToBytes (r"5"), [], strToBytes (r"-4"), strToBytes (r"7")]).MaxDiff) :=
  ⟨⟨by decide, by decide, by decide, by decide⟩,
    C5_diffData_length_invariant (diffRecord.mk 0 0 [] false) (strToBytes (r"3&123"))
      [strToBytes (r"5"), [], strToBytes (r"-4"), strToBytes (r"7")] 3 123
      (by decide) (by decide) (by decide) (by decide)⟩

/-! ## intToRinexDataBytes: the fixed-point formatter (reader.go) -/

/-- The digit-emission loop of `intToRinexDataBytes` (reader.go, the
`for i, pos := 0, len(buf); ; i++` loop), embedded with fuel `n + 1` (the
value shrinks by a factor 10 every iteration). Each iteration writes the
digit of the current value at `pos-1`; after the third digit the position
additionally skips the pre-placed decimal point; when the remaining value is
zero, the sign is placed (at index 8 for magnitudes below 1000, else just
before the most significant digit) and the loop returns. -/
def fmtLoopAux : Nat → List Nat → Nat → Bool → Nat → Nat → List Nat
  | 0, buf, _, _, _, _ => buf
  | fuel + 1, buf, n, neg, i, pos =>
    if n / 10 = 0 then
      if neg then
        (if i < 3 then ((buf.set (pos - 1) (48 + n % 10)).set 8 45)
         else ((buf.set (pos - 1) (48 + n % 10)).set
            ((if i = 2 then pos - 1 - 1 else pos - 1) - 1) 45))
      else (buf.set (pos - 1) (48 + n % 10))
    else
      fmtLoopAux fuel (buf.set (pos - 1) (48 + n % 10)) (n / 10) neg (i + 1)
        (if i = 2 then pos - 1 - 1 else pos - 1)

def fmtLoop (buf : List Nat) (n : Nat) (neg : Bool) (i pos : Nat) : List Nat :=
  fmtLoopAux (n + 1) buf n neg i pos

/-- The initial 14-byte buffer of `intToRinexDataBytes` (reader.go line 583):
nine spaces, `0`, `.`, `000`. -/
def rinexTemplate : List Nat := [32, 32, 32, 32, 32, 32, 32, 32, 32, 48, 46, 48, 48, 48]

/-- `intToRinexDataBytes` (reader.go lines 573-610) paired with the warning
flag: `true` means the value was out of range, the clamped field was returned
and the Go code logged a warning (the stream is not aborted — the function
still returns bytes). -/
def intToRinexDataBytesW (n : Int) : List Nat × Bool :=
  if n > 9999999999999 ∨ n < -999999999999 then
    (if n > 0 then strToBytes (r"9999999999.999") else strToBytes (r"-999999999.999"), true)
  else
    (fmtLoop rinexTemplate n.natAbs (decide (n < 0)) 0 14, false)

def intToRinexDataBytes (n : Int) : List Nat := (intToRinexDataBytesW n).1

theorem fmtLoopAux_congr :
    ∀ n fuel1 fuel2 buf neg i pos, n < fuel1 → n < fuel2 →
      fmtLoopAux fuel1 buf n neg i pos = fmtLoopAux fuel2 buf n neg i pos := by
  intro n
  induction n using Nat.strong_induction_on with
  | _ n ih =>
    intro fuel1 fuel2 buf neg i pos h1 h2
    match fuel1, fuel2, h1, h2 with
    | f1 + 1, f2 + 1, h1, h2 =>
      show (if n / 10 = 0 then _ else fmtLoopAux f1 _ (n / 10) neg (i + 1) _) =
        (if n / 10 = 0 then _ else fmtLoopAux f2 _ (n / 10) neg (i + 1) _)
      by_cases h0 : n / 10 = 0
      · rw [if_pos h0, if_pos h0]
      · rw [if_neg h0, if_neg h0]
        have hlt : n / 10 < n := Nat.div_lt_self (by omega) (by norm_num)
        exact ih (n / 10) hlt f1 f2 _ neg (i + 1) _ (by omega) (by omega)

theorem fmtLoop_last (buf : List Nat) (n : Nat) (neg : Bool) (i pos : Nat)
    (h : n / 10 = 0) :
    fmtLoop buf n neg i pos =
      (if neg then
        (if i < 3 then ((buf.set (pos - 1) (48 + n % 10)).set 8 45)
         else ((buf.set (pos - 1) (48 + n % 10)).set
            ((if i = 2 then pos - 1 - 1 else pos - 1) - 1) 45))
       else (buf.set (pos - 1) (48 + n % 10))) := by
  show fmtLoopAux (n + 1) buf n neg i pos = _
  rw [fmtLoopAux, if_pos h]

theorem fmtLoop_step (buf : List Nat) (n : Nat) (neg : Bool) (i pos : Nat)
    (h : n / 10 ≠ 0) :
    fmtLoop buf n neg i pos =
      fmtLoop (buf.set (pos - 1) (48 + n % 10)) (n / 10) neg (i + 1)
        (if i = 2 then pos - 1 - 1 else pos - 1) := by
  show fmtLoopAux (n + 1) buf n neg i pos = fmtLoopAux (n / 10 + 1) _ (n / 10) neg (i + 1) _
  rw [fmtLoopAux, if_neg h]
  exact fmtLoopAux_congr (n / 10) n (n / 10 + 1) _ neg (i + 1) _
    (Nat.div_lt_self (by omega) (by norm_num)) (by omega)

/-- Writing a little-endian digit list backwards from position `pos-1`
(exactly what the digit loop does with the successive digits). -/
def writeRev : List Nat → Nat → List Nat → List Nat
  | buf, _, [] => buf
  | buf, pos, b :: bs => writeRev (buf.set (pos - 1) b) (pos - 1) bs

/-- The digit loop from phase `i ≥ 3` onwards (no more decimal-point skips):
it writes the digits of `n` backwards from `pos-1` and, when negative, puts
the sign immediately before the most significant digit. -/
theorem fmtLoop_ge3 :
    ∀ n, 0 < n → ∀ (buf : List Nat) (neg : Bool) (i pos : Nat), 3 ≤ i →
      fmtLoop buf n neg i pos =
        (if neg then
          (writeRev buf pos (natToBytesRev n)).set
            (pos - (natToBytesRev n).length - 1) 45
         else writeRev buf pos (natToBytesRev n)) := by
  intro n
  induction n using Nat.strong_induction_on with
  | _ n ih =>
    intro hn buf neg i pos hi
    rw [natToBytesRev_eq n (by omega)]
    by_cases h0 : n / 10 = 0
    · rw [h0]
      have hrev0 : natToBytesRev 0 = [] := rfl
      rw [hrev0, fmtLoop_last buf n neg i pos h0]
      rw [if_neg (show ¬(i < 3) by omega), if_neg (show ¬(i = 2) by omega)]
      show _ = (if neg then (writeRev (buf.set (pos - 1) (48 + n % 10)) (pos - 1) []).set _ 45
        else writeRev (buf.set (pos - 1) (48 + n % 10)) (pos - 1) [])
      show (if neg then (buf.set (pos - 1) (48 + n % 10)).set (pos - 1 - 1) 45
        else buf.set (pos - 1) (48 + n % 10)) = _
      have hlen : pos - ([48 + n % 10] : List Nat).length - 1 = pos - 1 - 1 := by
        simp only [List.length_cons, List.length_nil]
      cases neg with
      | false => rfl
      | true =>
        simp only [if_pos]
        rw [hlen]
        rfl
    · rw [fmtLoop_step buf n neg i pos h0, if_neg (show ¬(i = 2) by omega)]
      have hlt : n / 10 < n := Nat.div_lt_self (by omega) (by norm_num)
      rw [ih (n / 10) hlt (by omega) _ neg (i + 1) (pos - 1) (by omega)]
      show _ = (if neg then (writeRev (buf.set (pos - 1) (48 + n % 10)) (pos - 1)
          (natToBytesRev (n / 10))).set
          (pos - ((48 + n % 10) :: natToBytesRev (n / 10)).length - 1) 45
        else writeRev (buf.set (pos - 1) (48 + n % 10)) (pos - 1) (natToBytesRev (n / 10)))
      have hlen : pos - ((48 + n % 10) :: natToBytesRev (n / 10)).length - 1 =
          pos - 1 - (natToBytesRev (n / 10)).length - 1 := by
        simp only [List.length_cons]
        omega
      rw [hlen]

theorem take_set_of_le (l : List Nat) (i k : Nat) (x : Nat) (h : k ≤ i) :
    (l.set i x).take k = l.take k := by
  apply List.ext_getElem?
  intro j
  rw [List.getElem?_take, List.getElem?_take]
  by_cases hj : j < k
  · rw [if_pos hj, if_pos hj, List.getElem?_set_ne (by omega)]
  · rw [if_neg hj, if_neg hj]

theorem drop_set_self (l : List Nat) (i : Nat) (x : Nat) (h : i < l.length) :
    (l.set i x).drop i = x :: l.drop (i + 1) := by
  apply List.ext_getElem?
  intro j
  rw [List.getElem?_drop]
  match j with
  | 0 =>
    rw [show i + 0 = i by omega, List.getElem?_set_self h, List.getElem?_cons_zero]
  | j + 1 =>
    rw [List.getElem?_set_ne (by omega)]
    rw [show i + (j + 1) = i + 1 + j by omega, ← List.getElem?_drop,
      List.getElem?_cons_succ]

theorem writeRev_eq (ds : List Nat) :
    ∀ (buf : List Nat) (pos : Nat), ds.length ≤ pos → pos ≤ buf.length →
      writeRev buf pos ds = buf.take (pos - ds.length) ++ ds.reverse ++ buf.drop pos := by
  induction ds with
  | nil =>
    intro buf pos _ _
    show buf = _
    simp [List.take_append_drop]
  | cons b bs ih =>
    intro buf pos hlen hpos
    show writeRev (buf.set (pos - 1) b) (pos - 1) bs = _
    simp only [List.length_cons] at hlen
    rw [ih (buf.set (pos - 1) b) (pos - 1) (by omega) (by rw [List.length_set]; omega)]
    rw [take_set_of_le _ _ _ _ (by omega)]
    have hdrop : (buf.set (pos - 1) b).drop (pos - 1) = b :: buf.drop pos := by
      rw [drop_set_self _ _ _ (by omega)]
      rw [show pos - 1 + 1 = pos by omega]
    rw [hdrop]
    rw [show pos - 1 - bs.length = pos - (bs.length + 1) by omega]
    rw [List.reverse_cons]
    simp only [List.append_assoc, List.singleton_append, List.length_cons]

theorem natToBytesRev_length_le :
    ∀ (k : Nat), ∀ n, n < 10 ^ k → (natToBytesRev n).length ≤ k := by
  intro k
  induction k with
  | zero =>
    intro n h
    have : n = 0 := by simpa using h
    subst this
    simp [natToBytesRev, natToBytesRevAux]
  | succ k ih =>
    intro n h
    by_cases h0 : n = 0
    · subst h0
      simp [natToBytesRev, natToBytesRevAux]
    · rw [natToBytesRev_eq n h0]
      simp only [List.length_cons]
      have hq : n / 10 < 10 ^ k := by
        rw [Nat.div_lt_iff_lt_mul (by norm_num)]
        calc n < 10 ^ (k + 1) := h
          _ = 10 ^ k * 10 := by ring
      have := ih (n / 10) hq
      omega

theorem natToBytesRev_length_pos (n : Nat) (h : 0 < n) :
    1 ≤ (natToBytesRev n).length := by
  rw [natToBytesRev_eq n (by omega)]
  simp

theorem natToBytes_length_of_pos (a : Nat) (h : 0 < a) :
    (natToBytes a).length = (natToBytesRev a).length := by
  rw [natToBytes, if_neg (by omega), List.length_reverse]

/-- The exact fixed-point rendering of `n / 1000` in a right-aligned 14-byte
field. This is the spec's description of what `fmt.Sprintf("%14.3f",
float64(n)*0.001)` produces: sign, integer part, `.`, exactly three fraction
digits, padded with spaces on the left. (The decimal expansion of `n / 1000`
is exact, so binary-float rounding never alters the printed digits for the
in-range values.) -/
def sprintfF14_3 (n : Int) : List Nat :=
  List.replicate (14 - ((if n < 0 then [45] else []) ++ natToBytes (n.natAbs / 1000) ++ [46] ++
      [48 + n.natAbs % 1000 / 100, 48 + n.natAbs % 100 / 10, 48 + n.natAbs % 10]).length) 32 ++
    ((if n < 0 then [45] else []) ++ natToBytes (n.natAbs / 1000) ++ [46] ++
      [48 + n.natAbs % 1000 / 100, 48 + n.natAbs % 100 / 10, 48 + n.natAbs % 10])

theorem fmtLoop_small1 (m : Nat) (neg : Bool) (hm : m ≤ 9) :
    fmtLoop rinexTemplate m neg 0 14 =
      if neg then [32, 32, 32, 32, 32, 32, 32, 32, 45, 48, 46, 48, 48, 48 + m]
      else [32, 32, 32, 32, 32, 32, 32, 32, 32, 48, 46, 48, 48, 48 + m] := by
  rw [fmtLoop_last _ _ _ _ _ (by omega), show m % 10 = m by omega]
  cases neg with
  | false => rfl
  | true => rfl

theorem fmtLoop_small2 (m : Nat) (neg : Bool) (h1 : 10 ≤ m) (h2 : m ≤ 99) :
    fmtLoop rinexTemplate m neg 0 14 =
      if neg then [32, 32, 32, 32, 32, 32, 32, 32, 45, 48, 46, 48, 48 + m / 10, 48 + m % 10]
      else [32, 32, 32, 32, 32, 32, 32, 32, 32, 48, 46, 48, 48 + m / 10, 48 + m % 10] := by
  rw [fmtLoop_step _ _ _ _ _ (by omega)]
  rw [fmtLoop_last _ _ _ _ _ (by omega)]
  rw [show m / 10 % 10 = m / 10 by omega]
  cases neg with
  | false => rfl
  | true => rfl

theorem fmtLoop_small3 (m : Nat) (neg : Bool) (h1 : 100 ≤ m) (h2 : m ≤ 999) :
    fmtLoop rinexTemplate m neg 0 14 =
      if neg then
        [32, 32, 32, 32, 32, 32, 32, 32, 45, 48, 46, 48 + m / 100, 48 + m / 10 % 10, 48 + m % 10]
      else
        [32, 32, 32, 32, 32, 32, 32, 32, 32, 48, 46, 48 + m / 100, 48 + m / 10 % 10, 48 + m % 10] := by
  rw [fmtLoop_step _ _ _ _ _ (by omega)]
  rw [fmtLoop_step _ _ _ _ _ (by omega)]
  rw [fmtLoop_last _ _ _ _ _ (by omega)]
  rw [show m / 10 / 10 % 10 = m / 100 by omega]
  cases neg with
  | false => rfl
  | true => rfl

theorem set_sign_into_pad (k : Nat) (R : List Nat) :
    (List.replicate (k + 1) 32 ++ R).set k 45 = List.replicate k 32 ++ 45 :: R := by
  rw [List.replicate_succ', List.append_assoc, List.set_append,
    if_neg (by simp)]
  simp

theorem fmtLoop_big (m : Nat) (neg : Bool) (h1 : 1000 ≤ m)
    (hD : (natToBytesRev (m / 1000)).length ≤ 10)
    (hDneg : neg = true → (natToBytesRev (m / 1000)).length ≤ 9) :
    fmtLoop rinexTemplate m neg 0 14 =
      if neg then
        List.replicate (9 - (natToBytesRev (m / 1000)).length) 32 ++ 45 ::
          (natToBytes (m / 1000) ++
            [46, 48 + m / 100 % 10, 48 + m / 10 % 10, 48 + m % 10])
      else
        List.replicate (10 - (natToBytesRev (m / 1000)).length) 32 ++
          (natToBytes (m / 1000) ++
            [46, 48 + m / 100 % 10, 48 + m / 10 % 10, 48 + m % 10]) := by
  have hD1 : 1 ≤ (natToBytesRev (m / 1000)).length :=
    natToBytesRev_length_pos _ (by omega)
  conv_lhs => rw [fmtLoop_step _ _ _ _ _ (by omega)]
  conv_lhs => rw [fmtLoop_step _ _ _ _ _ (by omega)]
  conv_lhs => rw [fmtLoop_step _ _ _ _ _ (by omega)]
  conv_lhs => norm_num
  rw [show m / 10 / 10 % 10 = m / 100 % 10 by omega]
  rw [show m / 10 / 10 / 10 = m / 1000 by omega]
  rw [fmtLoop_ge3 (m / 1000) (by omega) _ neg _ _ (by norm_num)]
  have hbuf : ((rinexTemplate.set 13 (48 + m % 10)).set 12 (48 + m / 10 % 10)).set
      11 (48 + m / 100 % 10) =
      List.replicate 9 32 ++ [48, 46, 48 + m / 100 % 10, 48 + m / 10 % 10, 48 + m % 10] := rfl
  have hlen14 : (List.replicate 9 32 ++
      [48, 46, 48 + m / 100 % 10, 48 + m / 10 % 10, 48 + m % 10]).length = 14 := by
    simp
  rw [hbuf]
  rw [writeRev_eq _ _ _ (by omega) (by rw [hlen14]; omega)]
  have htake : (List.replicate 9 32 ++
      [48, 46, 48 + m / 100 % 10, 48 + m / 10 % 10, 48 + m % 10]).take
        (10 - (natToBytesRev (m / 1000)).length) =
      List.replicate (10 - (natToBytesRev (m / 1000)).length) 32 := by
    rw [List.take_append_of_le_length (by simp; omega), List.take_replicate]
    congr 1
    omega
  have hdrop : (List.replicate 9 32 ++
      [48, 46, 48 + m / 100 % 10, 48 + m / 10 % 10, 48 + m % 10]).drop 10 =
      [46, 48 + m / 100 % 10, 48 + m / 10 % 10, 48 + m % 10] := rfl
  have hrev : (natToBytesRev (m / 1000)).reverse = natToBytes (m / 1000) := by
    rw [natToBytes, if_neg (by omega)]
  rw [htake, hdrop, hrev]
  cases neg with
  | false =>
    rw [if_neg (by simp), if_neg (by simp), List.append_assoc]
  | true =>
    have hD9 : (natToBytesRev (m / 1000)).length ≤ 9 := hDneg rfl
    rw [if_pos rfl, if_pos rfl, List.append_assoc]
    rw [show 10 - (natToBytesRev (m / 1000)).length - 1 =
      9 - (natToBytesRev (m / 1000)).length by omega]
    rw [show 10 - (natToBytesRev (m / 1000)).length =
      (9 - (natToBytesRev (m / 1000)).length) + 1 by omega]
    rw [set_sign_into_pad]

/-- C3: for every `n` in `[-999999999999, 9999999999999]`,
`intToRinexDataBytes n` returns exactly the 14 bytes of the `%14.3f`
rendering of `n·0.001` (modelled exactly by `sprintfF14_3`), and the result
always has exactly 14 bytes. -/
theorem C3_formatter_exact (n : Int)
    (h1 : -999999999999 ≤ n) (h2 : n ≤ 9999999999999) :
    intToRinexDataBytes n = sprintfF14_3 n ∧ (intToRinexDataBytes n).length = 14 := by
  have hmain : intToRinexDataBytes n = sprintfF14_3 n := by
    unfold intToRinexDataBytes intToRinexDataBytesW
    rw [if_neg (by omega)]
    show fmtLoop rinexTemplate n.natAbs (decide (n < 0)) 0 14 = _
    unfold sprintfF14_3
    by_cases hneg : n < 0
    · have hdec : decide (n < 0) = true := by simp [hneg]
      rw [hdec]
      simp only [if_pos hneg]
      have hAlo : 1 ≤ n.natAbs := by omega
      have hAhi : n.natAbs ≤ 999999999999 := by omega
      by_cases hA9 : n.natAbs ≤ 9
      · rw [fmtLoop_small1 _ _ hA9, if_pos rfl]
        rw [show n.natAbs / 1000 = 0 by omega, show natToBytes 0 = [48] from rfl,
          show n.natAbs % 1000 / 100 = 0 by omega, show n.natAbs % 100 / 10 = 0 by omega,
          show n.natAbs % 10 = n.natAbs by omega]
        rfl
      · by_cases hA99 : n.natAbs ≤ 99
        · rw [fmtLoop_small2 _ _ (by omega) hA99, if_pos rfl]
          rw [show n.natAbs / 1000 = 0 by omega, show natToBytes 0 = [48] from rfl,
            show n.natAbs % 1000 / 100 = 0 by omega,
            show n.natAbs % 100 / 10 = n.natAbs / 10 by omega]
          rfl
        · by_cases hA999 : n.natAbs ≤ 999
          · rw [fmtLoop_small3 _ _ (by omega) hA999, if_pos rfl]
            rw [show n.natAbs / 1000 = 0 by omega, show natToBytes 0 = [48] from rfl,
              show n.natAbs % 1000 / 100 = n.natAbs / 100 by omega,
              show n.natAbs % 100 / 10 = n.natAbs / 10 % 10 by omega]
            rfl
          · have hD9 : (natToBytesRev (n.natAbs / 1000)).length ≤ 9 := by
              apply natToBytesRev_length_le 9
              have hp : (10 : Nat) ^ 9 = 1000000000 := by norm_num
              rw [hp]
              omega
            rw [fmtLoop_big _ _ (by omega) (by omega) (fun _ => hD9), if_pos rfl]
            rw [show n.natAbs % 1000 / 100 = n.natAbs / 100 % 10 by omega,
              show n.natAbs % 100 / 10 = n.natAbs / 10 % 10 by omega]
            have hcl : (([45] ++ natToBytes (n.natAbs / 1000) ++ [46] ++
                [48 + n.natAbs / 100 % 10, 48 + n.natAbs / 10 % 10, 48 + n.natAbs % 10]).length) =
                (natToBytesRev (n.natAbs / 1000)).length + 5 := by
              simp only [List.length_append, List.length_cons, List.length_nil]
              rw [natToBytes_length_of_pos _ (by omega)]
              omega
            rw [hcl, show 14 - ((natToBytesRev (n.natAbs / 1000)).length + 5) =
              9 - (natToBytesRev (n.natAbs / 1000)).length by omega]
            simp [List.append_assoc]
    · have hdec : decide (n < 0) = false := by simp [hneg]
      rw [hdec]
      simp only [if_neg hneg]
      have hAhi : n.natAbs ≤ 9999999999999 := by omega
      by_cases hA9 : n.natAbs ≤ 9
      · rw [fmtLoop_small1 _ _ hA9, if_neg (by simp)]
        rw [show n.natAbs / 1000 = 0 by omega, show natToBytes 0 = [48] from rfl,
          show n.natAbs % 1000 / 100 = 0 by omega, show n.natAbs % 100 / 10 = 0 by omega,
          show n.natAbs % 10 = n.natAbs by omega]
        rfl
      · by_cases hA99 : n.natAbs ≤ 99
        · rw [fmtLoop_small2 _ _ (by omega) hA99, if_neg (by simp)]
          rw [show n.natAbs / 1000 = 0 by omega, show natToBytes 0 = [48] from rfl,
            show n.natAbs % 1000 / 100 = 0 by omega,
            show n.natAbs % 100 / 10 = n.natAbs / 10 by omega]
          rfl
        · by_cases hA999 : n.natAbs ≤ 999
          · rw [fmtLoop_small3 _ _ (by omega) hA999, if_neg (by simp)]
            rw [show n.natAbs / 1000 = 0 by omega, show natToBytes 0 = [48] from rfl,
              show n.natAbs % 1000 / 100 = n.natAbs / 100 by omega,
              show n.natAbs % 100 / 10 = n.natAbs / 10 % 10 by omega]
            rfl
          · have hD10 : (natToBytesRev (n.natAbs / 1000)).length ≤ 10 := by
              apply natToBytesRev_length_le 10
              have hp : (10 : Nat) ^ 10 = 10000000000 := by norm_num
              rw [hp]
              omega
            rw [fmtLoop_big _ _ (by omega) hD10 (fun h => absurd h (by simp)),
              if_neg (by simp)]
            rw [show n.natAbs % 1000 / 100 = n.natAbs / 100 % 10 by omega,
              show n.natAbs % 100 / 10 = n.natAbs / 10 % 10 by omega]
            have hcl : (([] ++ natToBytes (n.natAbs / 1000) ++ [46] ++
                [48 + n.natAbs / 100 % 10, 48 + n.natAbs / 10 % 10, 48 + n.natAbs % 10]).length) =
                (natToBytesRev (n.natAbs / 1000)).length + 4 := by
              simp only [List.length_append, List.length_cons, List.length_nil]
              rw [natToBytes_length_of_pos _ (by omega)]
              omega
            rw [hcl, show 14 - ((natToBytesRev (n.natAbs / 1000)).length + 4) =
              10 - (natToBytesRev (n.natAbs / 1000)).length by omega]
            simp [List.append_assoc]
  refine ⟨hmain, ?_⟩
  rw [hmain]
  unfold sprintfF14_3
  rw [List.length_append, List.length_replicate]
  have hnt10 : (natToBytes (n.natAbs / 1000)).length ≤ 10 := by
    by_cases h0 : n.natAbs / 1000 = 0
    · rw [h0]
      simp [natToBytes]
    · rw [natToBytes_length_of_pos _ (by omega)]
      apply natToBytesRev_length_le 10
      have hp : (10 : Nat) ^ 10 = 10000000000 := by norm_num
      rw [hp]
      omega
  have hnt9 : n < 0 → (natToBytes (n.natAbs / 1000)).length ≤ 9 := by
    intro hneg
    by_cases h0 : n.natAbs / 1000 = 0
    · rw [h0]
      simp [natToBytes]
    · rw [natToBytes_length_of_pos _ (by omega)]
      apply natToBytesRev_length_le 9
      have hp : (10 : Nat) ^ 9 = 1000000000 := by norm_num
      rw [hp]
      omega
  by_cases hneg : n < 0
  · simp only [if_pos hneg, List.length_append, List.length_cons, List.length_nil]
    have := hnt9 hneg
    omega
  · simp only [if_neg hneg, List.length_append, List.length_cons, List.length_nil]
    omega

/-- Witness for C3: the field for -1 thousandth is exactly `        -0.001`
(and in particular 14 bytes long). -/
theorem C3_witness :
    (-999999999999 ≤ (-1 : Int) ∧ (-1 : Int) ≤ 9999999999999) ∧
    intToRinexDataBytes (-1) = strToBytes (r"        -0.001") ∧
    (intToRinexDataBytes (-1)).length = 14 :=
  ⟨⟨by norm_num, by norm_num⟩,
    ((C3_formatter_exact (-1) (by norm_num) (by norm_num)).1).trans (by decide),
    (C3_formatter_exact (-1) (by norm_num) (by norm_num)).2⟩

/-- C6: a value outside `[-999999999999, 9999999999999]` thousandths is
clamped to `9999999999.999` when positive and `-999999999.999` when negative,
the warning flag is raised (the Go code logs a warning), and the formatter
still returns a field — decoding is not aborted. -/
theorem C6_overflow_clamp (n : Int) :
    (n > 9999999999999 → intToRinexDataBytesW n = (strToBytes (r"9999999999.999"), true)) ∧
    (n < -999999999999 → intToRinexDataBytesW n = (strToBytes (r"-999999999.999"), true)) := by
  constructor
  · intro h
    unfold intToRinexDataBytesW
    rw [if_pos (Or.inl h), if_pos (by omega)]
  · intro h
    unfold intToRinexDataBytesW
    rw [if_pos (Or.inr h), if_neg (by omega)]

/-- Witness for C6 at the spec's concrete overflow value 10^13 thousandths. -/
theorem C6_witness :
    ((10000000000000 : Int) > 9999999999999) ∧
    intToRinexDataBytesW 10000000000000 = (strToBytes (r"9999999999.999"), true) :=
  ⟨by norm_num, (C6_overflow_clamp 10000000000000).1 (by norm_num)⟩

/-! ## C10: zero-extension of strRecord buffers and the emitted LLI/SS bytes -/

/-- The per-observable emission step of the V3 data block
(reader.go, `DataAsBytes`): 16 spaces for missing data, else the 14-byte
value field followed by the single LLI and SS bytes read as `buf[0]`
(modelled by `getD 0`; an empty buffer would make the Go read panic). -/
def emitObs (d1 : diffRecord) (lli ss : strRecord) : List Nat :=
  if d1.missing then strToBytes (r"                ")
  else intToRinexDataBytes d1.refData ++ [lli.buf.getD 0 0, ss.buf.getD 0 0]

/-- C10: when a patch is longer than the buffer, `strRecord.Decode` extends
the buffer with NUL (0x00) bytes, and a space patch byte leaves the
underlying byte unchanged — so a fresh empty record decoded with `" "` holds
`[0x00]`, not a space, and that NUL byte reaches the emitted LLI/SS output
via `buf[0]`. -/
theorem C10_nul_padding :
    (∀ (e : strRecord) (p : List Nat) (i : Nat),
        i < p.length → e.buf.length ≤ i → p.getD i 0 = 32 →
        (e.Decode p).buf[i]? = some 0) ∧
    ((strRecord.mk []).Decode (strToBytes (r" ")) = strRecord.mk [0]) ∧
    (∀ d1 : diffRecord, d1.missing = false →
      (0 : Nat) ∈ emitObs d1 ((strRecord.mk []).Decode (strToBytes (r" ")))
        ((strRecord.mk []).Decode (strToBytes (r" ")))) := by
  refine ⟨?_, by decide, ?_⟩
  · intro e p i hip hib hsp
    have hp : p ≠ [] := by
      intro h
      subst h
      simp at hip
    rw [strRecord_Decode_eq e p hp]
    show (overlayLoop (extBuf e p) 0 p)[i]? = some 0
    rw [overlayLoop_getElem? p _ 0 (by rw [extBuf_length]; omega) i,
      if_pos ⟨Nat.zero_le i, by omega⟩]
    simp only [Nat.sub_zero]
    rw [if_pos hsp]
    unfold extBuf
    rw [if_pos (by omega), List.getElem?_append_right (by omega),
      List.getElem?_replicate, if_pos (by omega)]
  · intro d1 h1
    unfold emitObs
    rw [h1, if_neg (by simp)]
    exact List.mem_append_right _ (by decide)

/-- Witness for C10: decoding a single space into a fresh empty record puts a
NUL byte at position 0. -/
theorem C10_witness :
    (0 < (strToBytes (r" ")).length ∧ (strRecord.mk ([] : List Nat)).buf.length ≤ 0 ∧
      (strToBytes (r" ")).getD 0 0 = 32) ∧
    ((strRecord.mk []).Decode (strToBytes (r" "))).buf[0]? = some 0 :=
  ⟨⟨by decide, by decide, by decide⟩,
    C10_nul_padding.1 (strRecord.mk []) (strToBytes (r" ")) 0 (by decide) (by decide)
      (by decide)⟩

/-! ## satDataRecord allocation (decoder.go) and the V1 LLI/SS buffers -/

/-- `satDataRecord` (decoder.go): per-satellite parallel arrays of value,
LLI and SS state, one slot per observation code. -/
structure satDataRecord where
  obsCodes : List (List Nat)
  data : List diffRecord
  lli : List strRecord
  ss : List strRecord
deriving DecidableEq

/-- `NewSatDataRecord` (decoder.go): Go's `make` fills the slices with zero
values — in particular every LLI/SS `strRecord` has a nil (empty) buffer. -/
def NewSatDataRecord (obsCodes : List (List Nat)) : satDataRecord :=
  ⟨obsCodes,
    List.replicate obsCodes.length (diffRecord.mk 0 0 [] false),
    List.replicate obsCodes.length (strRecord.mk []),
    List.replicate obsCodes.length (strRecord.mk [])⟩

/-- `NewSatDataRecordV1` (decoder.go): as `NewSatDataRecord`, then every LLI
and SS buffer is initialized to a single space, because CRINEX version 1 has
no initialization identifier for them. -/
def NewSatDataRecordV1 (obsCodes : List (List Nat)) : satDataRecord :=
  ⟨obsCodes,
    List.replicate obsCodes.length (diffRecord.mk 0 0 [] false),
    List.replicate obsCodes.length (strRecord.mk [32]),
    List.replicate obsCodes.length (strRecord.mk [32])⟩

theorem getD_replicate {α : Type} (a dflt : α) (n j : Nat) (h : j < n) :
    (List.replicate n a).getD j dflt = a := by
  rw [List.getD_eq_getElem?_getD, List.getElem?_replicate, if_pos h]
  rfl

/-- C8 evidence: `NewSatDataRecordV1` does give every LLI/SS buffer a single
space (so `buf[0]` is in bounds), but the scanEpoch of reader.go allocates
with `NewSatDataRecord` for every version, whose LLI/SS buffers are empty —
the subsequent V1 write `data[satId].lli[j].buf[0] = ' '` (reader.go) and the
emission reads `d.lli[k].buf[0]` index an empty slice (a Go runtime panic). -/
theorem C8_v1_lli_allocation :
    (∀ (obsCodes : List (List Nat)) (j : Nat), j < obsCodes.length →
      ((NewSatDataRecordV1 obsCodes).lli.getD j (strRecord.mk [])).buf = [32] ∧
      ((NewSatDataRecordV1 obsCodes).ss.getD j (strRecord.mk [])).buf = [32]) ∧
    (∀ (obsCodes : List (List Nat)) (j : Nat), j < obsCodes.length →
      ((NewSatDataRecord obsCodes).lli.getD j (strRecord.mk [])).buf = [] ∧
      ¬0 < ((NewSatDataRecord obsCodes).lli.getD j (strRecord.mk [])).buf.length) := by
  constructor
  · intro obsCodes j hj
    unfold NewSatDataRecordV1
    rw [getD_replicate _ _ _ _ hj]
    exact ⟨rfl, rfl⟩
  · intro obsCodes j hj
    unfold NewSatDataRecord
    rw [getD_replicate _ _ _ _ hj]
    exact ⟨rfl, by simp⟩

/-- Witness for C8 at a concrete one-observable code list. -/
theorem C8_witness :
    (0 < ([strToBytes (r"L1C")] : List (List Nat)).length) ∧
    ((NewSatDataRecordV1 [strToBytes (r"L1C")]).lli.getD 0 (strRecord.mk [])).buf = [32] ∧
    ((NewSatDataRecord [strToBytes (r"L1C")]).lli.getD 0 (strRecord.mk [])).buf = [] :=
  ⟨by decide,
    (C8_v1_lli_allocation.1 [strToBytes (r"L1C")] 0 (by decide)).1,
    (C8_v1_lli_allocation.2 [strToBytes (r"L1C")] 0 (by decide)).1⟩

/-! ## setup: magic and version gate (reader.go) -/

inductive setupErr where
  | BadMagic
  | NotSupportedVersion
deriving DecidableEq

instance instDecEqExcept {ε α : Type} [DecidableEq ε] [DecidableEq α] :
    DecidableEq (Except ε α) := fun a b =>
  match a, b with
  | .error e1, .error e2 =>
    if h : e1 = e2 then isTrue (by rw [h]) else
      isFalse (by intro hc; cases hc; exact h rfl)
  | .ok x, .ok y =>
    if h : x = y then isTrue (by rw [h]) else
      isFalse (by intro hc; cases hc; exact h rfl)
  | .error _, .ok _ => isFalse (by intro hc; cases hc)
  | .ok _, .error _ => isFalse (by intro hc; cases hc)

/-- `setup` (reader.go lines 246-279) restricted to the first line's bytes:
fails with BadMagic when the line is shorter than 40 bytes or bytes 21-40
differ from `COMPACT RINEX FORMAT`; sets the version from the trimmed first
20 bytes and fails with NotSupportedVersion unless it is `3.0` or `1.0`; on
success it returns the version (the Go function additionally skips the
second line and threads the scanner, which the claims do not mention). -/
def setup (t : List Nat) : Except setupErr (List Nat) :=
  if t.length < 40 then .error .BadMagic
  else if (t.drop 20).take 20 ≠ strToBytes (r"COMPACT RINEX FORMAT") then .error .BadMagic
  else if trimSpace (t.take 20) ≠ strToBytes (r"3.0") ∧
      trimSpace (t.take 20) ≠ strToBytes (r"1.0") then .error .NotSupportedVersion
  else .ok (trimSpace (t.take 20))

/-- Counterexample to C4: a 40-byte first line with a valid magic and version
field `3.1` does not make setup succeed — it is rejected with
NotSupportedVersion (the source's setup accepts only `3.0` and `1.0`). -/
theorem C4_counterexample :
    setup (strToBytes (r"3.1                 COMPACT RINEX FORMAT")) =
      .error .NotSupportedVersion := by decide

/-- C4 as amended: setup fails with BadMagic when the line is shorter than 40
bytes or bytes 21-40 differ from `COMPACT RINEX FORMAT`; otherwise it sets
the version from the trimmed first 20 bytes and fails with
NotSupportedVersion unless that value is `3.0` or `1.0` — so for every first
line with a valid magic and version field `3.0` (or `1.0`), setup succeeds. -/
theorem C4_amended_setup (t : List Nat) :
    (t.length < 40 → setup t = .error .BadMagic) ∧
    (40 ≤ t.length → (t.drop 20).take 20 ≠ strToBytes (r"COMPACT RINEX FORMAT") →
      setup t = .error .BadMagic) ∧
    (40 ≤ t.length → (t.drop 20).take 20 = strToBytes (r"COMPACT RINEX FORMAT") →
      trimSpace (t.take 20) ≠ strToBytes (r"3.0") →
      trimSpace (t.take 20) ≠ strToBytes (r"1.0") →
      setup t = .error .NotSupportedVersion) ∧
    (40 ≤ t.length → (t.drop 20).take 20 = strToBytes (r"COMPACT RINEX FORMAT") →
      (trimSpace (t.take 20) = strToBytes (r"3.0") ∨
        trimSpace (t.take 20) = strToBytes (r"1.0")) →
      setup t = .ok (trimSpace (t.take 20))) := by
  refine ⟨?_, ?_, ?_, ?_⟩
  · intro h
    unfold setup
    rw [if_pos h]
  · intro h1 h2
    unfold setup
    rw [if_neg (by omega), if_pos h2]
  · intro h1 h2 h3 h4
    unfold setup
    rw [if_neg (by omega), if_neg (by simpa using h2), if_pos ⟨h3, h4⟩]
  · intro h1 h2 h3
    unfold setup
    rw [if_neg (by omega), if_neg (by simpa using h2),
      if_neg (by rcases h3 with h | h <;> simp [h])]

/-- Witness for the amended C4: a valid `3.0` first line is accepted. -/
theorem C4_witness :
    (40 ≤ (strToBytes (r"3.0                 COMPACT RINEX FORMAT")).length ∧
      ((strToBytes (r"3.0                 COMPACT RINEX FORMAT")).drop 20).take 20 =
        strToBytes (r"COMPACT RINEX FORMAT")) ∧
    setup (strToBytes (r"3.0                 COMPACT RINEX FORMAT")) =
      .ok (trimSpace ((strToBytes (r"3.0                 COMPACT RINEX FORMAT")).take 20)) :=
  ⟨⟨by decide, by decide⟩,
    (C4_amended_setup (strToBytes (r"3.0                 COMPACT RINEX FORMAT"))).2.2.2
      (by decide) (by decide) (Or.inl (by decide))⟩

/-! ## Epoch-record update loop (reader.go Scanner.updateEpochRec) -/

inductive scanErr where
  | InvalidEpochStr
  | EOF
  | NotSupportedVersion
deriving DecidableEq

/-- Go `strings.Fields` on bytes: split around runs of whitespace. -/
def goFieldsAux : List Nat → List Nat → List (List Nat)
  | [], acc => if acc.isEmpty then [] else [acc.reverse]
  | c :: rest, acc =>
    if isGoSpace c then
      (if acc.isEmpty then goFieldsAux rest [] else acc.reverse :: goFieldsAux rest [])
    else goFieldsAux rest (c :: acc)

def goFields (s : List Nat) : List (List Nat) := goFieldsAux s []

/-- `checkInitialized` (reader.go lines 1176-1234): classify an epoch line.
Returns (initialized, specialEventFound, numSkip, error): `>` lines are V3
initializations (length ≥ 35, epoch flag at byte 32, skip count at bytes
33-35), `&` lines are V1 initializations (length ≥ 32, flag at byte 29,
count at bytes 30-32), anything else is a diff line. -/
def checkInitialized (epochStr : List Nat) : Bool × Bool × Int × Option scanErr :=
  if epochStr.head? = some 62 then
    if epochStr.length < 35 then (true, false, 0, some .InvalidEpochStr)
    else if epochStr.getD 31 0 > 49 then
      match atoi (trimSpace ((epochStr.drop 32).take 3)) with
      | some k => (true, true, k, none)
      | none => (true, true, 0, some .InvalidEpochStr)
    else (true, false, 0, none)
  else if epochStr.head? = some 38 then
    if epochStr.length < 32 then (true, false, 0, some .InvalidEpochStr)
    else if epochStr.getD 28 0 > 49 then
      match atoi (trimSpace ((epochStr.drop 29).take 3)) with
      | some k => (true, true, k, none)
      | none => (true, true, 0, some .InvalidEpochStr)
    else (true, false, 0, none)
  else (false, false, 0, none)

/-- `epochRecBytestoTime` (reader.go lines 482-547), abstracted: the Go code
parses the date columns with `time.Parse` (V3) or per-column `Atoi` (V1) and
returns a `time.Time`; this model checks the same length preconditions and
numeric-field requirements and returns the numeric fields. `time.Parse`'s
space-run leniency is modelled by a whitespace split; fractional seconds are
cut at the decimal point. No claim depends on the returned value, only on
the success/error paths. -/
def epochRecBytestoTime (b : List Nat) (ver : List Nat) : Except scanErr (List Int) :=
  if ver = strToBytes (r"3.0") then
    if b.length < 29 then .error .InvalidEpochStr
    else
      let fields := goFields ((b.drop 2).take 27)
      let nums := fields.map (fun f => atoi (f.takeWhile (fun c => decide (c ≠ 46))))
      if fields.length = 6 ∧ nums.all (fun o => o.isSome) then
        .ok (nums.map (fun o => o.getD 0))
      else .error .InvalidEpochStr
  else if ver = strToBytes (r"1.0") then
    if b.length < 25 then .error .InvalidEpochStr
    else
      match atoi (trimSpace ((b.drop 1).take 2)), atoi (trimSpace ((b.drop 4).take 2)),
        atoi (trimSpace ((b.drop 7).take 2)), atoi (trimSpace ((b.drop 10).take 2)),
        atoi (trimSpace ((b.drop 13).take 2)),
        (if (trimSpace ((b.drop 16).take 2)).isEmpty then some (0 : Int)
          else atoi (trimSpace ((b.drop 16).take 2))),
        (if (trimSpace (((b.drop 19).take 6).dropWhile (fun c => c = 48) ++
            [b.getD 25 0])).isEmpty then some (0 : Int)
          else atoi (((b.drop 19).take 6).dropWhile (fun c => c = 48) ++ [b.getD 25 0])) with
      | some y, some mo, some d, some h, some mi, some s, some ns =>
        .ok [if y ≥ 80 then y + 1900 else y + 2000, mo, d, h, mi, s, ns * 100]
      | _, _, _, _, _, _, _ => .error .InvalidEpochStr
  else .error .NotSupportedVersion

/-- The re-check loop of `updateEpochRec` (reader.go lines 1248-1286): skip
special-event blocks, insisting that the line after a skipped block starts
with an initialization flag; fuelled by the number of remaining input lines
plus one (every iteration consumes at least one line). -/
def ueLoop : Nat → List Nat → List (List Nat) →
    Except scanErr (Bool × List Nat × List (List Nat))
  | 0, _, _ => .error .EOF
  | fuel + 1, epochStr, lines =>
    if (checkInitialized epochStr).2.2.2.isSome then .error .InvalidEpochStr
    else if (checkInitialized epochStr).2.1 then
      if lines.length < (checkInitialized epochStr).2.2.1.toNat then .error .EOF
      else
        match lines.drop (checkInitialized epochStr).2.2.1.toNat with
        | [] => .error .EOF
        | next :: rest =>
          if next.head? ≠ some 38 ∧ next.head? ≠ some 62 then .error .InvalidEpochStr
          else ueLoop fuel next rest
    else .ok ((checkInitialized epochStr).1, epochStr, lines)

/-- `Scanner.updateEpochRec` (reader.go lines 1239-1306) as a state
transformer over (version, epoch strRecord, epoch line, remaining lines):
returns the updated epoch record, whether differenced data is to be reset
(`s.data = make(...)` in Go) and the unconsumed lines. -/
def updateEpochRec (ver : List Nat) (er : strRecord) (epochStr : List Nat)
    (lines : List (List Nat)) : Except scanErr (strRecord × Bool × List (List Nat)) :=
  match ueLoop (lines.length + 1) epochStr lines with
  | .error e => .error e
  | .ok (initFlagFound, es, rest) =>
    let newRec := if initFlagFound then strRecord.mk es else er.Decode es
    match epochRecBytestoTime newRec.buf ver with
    | .error e => .error e
    | .ok _ => .ok (newRec, initFlagFound, rest)

/-- C7: whenever an epoch line announces a special event (flag byte > '1' at
the version-specific offset, with a parseable skip count) and the announced
number of lines has been skipped, the next line read must begin with `>` or
`&`; if it does not, updateEpochRec fails with InvalidEpochStr. -/
theorem C7_special_event_requires_init (ver : List Nat) (er : strRecord)
    (epochStr : List Nat) (skipped : List (List Nat)) (next : List Nat)
    (rest : List (List Nat)) (initf : Bool) (k : Int)
    (hchk : checkInitialized epochStr = (initf, true, k, none))
    (hskip : skipped.length = k.toNat)
    (hnext1 : next.head? ≠ some 38) (hnext2 : next.head? ≠ some 62) :
    updateEpochRec ver er epochStr (skipped ++ next :: rest) =
      .error .InvalidEpochStr := by
  unfold updateEpochRec
  have hstep : ueLoop ((skipped ++ next :: rest).length + 1) epochStr
      (skipped ++ next :: rest) = .error .InvalidEpochStr := by
    rw [ueLoop, hchk]
    rw [if_neg (by simp)]
    rw [if_pos (by simp)]
    have hlen : ¬((skipped ++ next :: rest).length < ((initf, true, k, none) :
        Bool × Bool × Int × Option scanErr).2.2.1.toNat) := by
      simp only [List.length_append, List.length_cons]
      omega
    rw [if_neg hlen]
    have hdrop : (skipped ++ next :: rest).drop ((initf, true, k, none) :
        Bool × Bool × Int × Option scanErr).2.2.1.toNat = next :: rest := by
      show (skipped ++ next :: rest).drop k.toNat = next :: rest
      rw [← hskip]
      exact List.drop_left _ _
    rw [hdrop]
    show (if next.head? ≠ some 38 ∧ next.head? ≠ some 62 then
        Except.error scanErr.InvalidEpochStr
      else ueLoop (skipped ++ next :: rest).length next rest) = _
    rw [if_pos ⟨hnext1, hnext2⟩]
  rw [hstep]

/-- Witness for C7: a V3 special-event epoch line announcing two skipped
lines, followed by a data-looking line instead of an initialization flag. -/
theorem C7_witness :
    (checkInitialized (strToBytes (r"> 2022 01 01 00 00 00.0000000  4  2")) =
        (true, true, 2, none) ∧
      ([strToBytes (r"event line 1"), strToBytes (r"event line 2")] :
        List (List Nat)).length = (2 : Int).toNat ∧
      (strToBytes (r"G01 12345")).head? ≠ some 38 ∧
      (strToBytes (r"G01 12345")).head? ≠ some 62) ∧
    updateEpochRec (strToBytes (r"3.0")) (strRecord.mk [])
      (strToBytes (r"> 2022 01 01 00 00 00.0000000  4  2"))
      ([strToBytes (r"event line 1"), strToBytes (r"event line 2")] ++
        strToBytes (r"G01 12345") :: []) = .error .InvalidEpochStr :=
  ⟨⟨by decide, by decide, by decide, by decide⟩,
    C7_special_event_requires_init (strToBytes (r"3.0")) (strRecord.mk [])
      (strToBytes (r"> 2022 01 01 00 00 00.0000000  4  2"))
      [strToBytes (r"event line 1"), strToBytes (r"event line 2")]
      (strToBytes (r"G01 12345")) [] true 2
      (by decide) (by decide) (by decide) (by decide)⟩

/-! ## parseObsTypesV2: the RINEX 2 obs-type header parser (reader.go) -/

/-- Valid satellite systems (constants.go); a space denotes GPS. -/
def VALID_SATSYS : List (List Nat) := [[32], [71], [82], [69], [74], [67], [73], [83]]

/-- The inner code-collection loop of `parseObsTypesV2` (reader.go lines
438-465): `obsCodes[i] = sep[n][:2]`, with a move to the next header line
after every 9 codes. The fuel is the number of codes still to read; `sep`
indices beyond the field list (a Go panic) are modelled by `getD`'s default
(whose length < 2 yields the same error as Go's explicit check). The Go
variable `idx` is updated but never read, so it is omitted. Returns the
codes, the final line index and field list. -/
def potV2Loop : Nat → List (List Nat) → Nat → List (List Nat) → Nat →
    List (List Nat) → Nat → Nat →
    Except Unit (List (List Nat) × Nat × List (List Nat))
  | 0, _, k, sep, _, obsCodes, _, _ => .ok (obsCodes, k, sep)
  | rem + 1, buf, k, sep, n, obsCodes, i, numCodes =>
    if (sep.getD n []).length ≥ 2 then
      if n + 1 = 9 ∧ i + 1 < numCodes then
        if k + 1 ≥ buf.length then .error ()
        else
          potV2Loop rem buf (k + 1)
            (if (buf.getD (k + 1) []).length > 60
              then goFields ((buf.getD (k + 1) []).take 60)
              else goFields (buf.getD (k + 1) [])) 0
            (obsCodes.set i ((sep.getD n []).take 2)) (i + 1) numCodes
      else
        potV2Loop rem buf k sep (n + 1)
          (obsCodes.set i ((sep.getD n []).take 2)) (i + 1) numCodes
    else .error ()

/-- The outer line loop of `parseObsTypesV2` (reader.go lines 434-466):
`for k := 0; k < len(buf); k++`, running the inner loop each time (the inner
loop may advance `k` over continuation lines). Fuelled by the number of
lines plus one (k strictly increases). -/
def potV2Outer : Nat → List (List Nat) → Nat → List (List Nat) →
    List (List Nat) → Nat → Except Unit (List (List Nat))
  | 0, _, _, _, obsCodes, _ => .ok obsCodes
  | fuel + 1, buf, k, sep, obsCodes, numCodes =>
    if k < buf.length then
      match potV2Loop numCodes buf k sep 0 obsCodes 0 numCodes with
      | .error e => .error e
      | .ok (obsCodes1, k1, sep1) => potV2Outer fuel buf (k1 + 1) sep1 obsCodes1 numCodes
    else .ok obsCodes

/-- `parseObsTypesV2` (reader.go lines 410-475): the observation count in
columns 1-6 is parsed with `strconv.Atoi(strings.TrimSpace(s[:6]))` directly
— no replacement of non-numeric characters — then the 2-char codes are read
from the whitespace-split fields and the resulting list is registered for
every valid satellite system. A negative count (Go: `make` panics) is
modelled by `toNat`. -/
def parseObsTypesV2 (buf : List (List Nat)) :
    Except Unit (List (List Nat × List (List Nat))) :=
  if buf.length = 0 then .error ()
  else
    match atoi (trimSpace ((buf.getD 0 []).take 6)) with
    | none => .error ()
    | some numCodes =>
      match potV2Outer (buf.length + 1) buf 0 ((goFields (buf.getD 0 [])).drop 1)
          (List.replicate numCodes.toNat []) numCodes.toNat with
      | .error e => .error e
      | .ok obsCodes => .ok (VALID_SATSYS.map (fun sys => (sys, obsCodes)))

/-- Counterexample to C9: a count field containing a stray non-numeric
character (`    6a`) makes parseObsTypesV2 fail — it does not yield a parsed
count (there is no replaceNonNumericToSpace step in the source). -/
theorem C9_counterexample :
    parseObsTypesV2 [strToBytes
      (r"    6a    C1    C2    C3    C4    C5    C6                  # / TYPES OF OBSERV")] =
      .error () := by decide

/-- C9 as amended: when parsing the RINEX 2 `# / TYPES OF OBSERV` header
record, the observation count in columns 1-6 is parsed by TrimSpace + Atoi
with no replacement of non-numeric characters, so a count field containing
stray non-numeric characters yields a parse failure, not a parsed count. -/
theorem C9_amended_count_parse (s : List Nat) (rest : List (List Nat))
    (h : atoi (trimSpace (s.take 6)) = none) :
    parseObsTypesV2 (s :: rest) = .error () := by
  unfold parseObsTypesV2
  rw [if_neg (by simp)]
  rw [show ((s :: rest).getD 0 []) = s from rfl, h]

/-- Witness for the amended C9 at the counterexample line. -/
theorem C9_witness :
    (atoi (trimSpace ((strToBytes
        (r"    6a    C1    C2    C3    C4    C5    C6                  # / TYPES OF OBSERV")).take 6)) =
      none) ∧
    parseObsTypesV2 [strToBytes
      (r"    6a    C1    C2    C3    C4    C5    C6                  # / TYPES OF OBSERV")] =
      .error () :=
  ⟨by decide,
    C9_amended_count_parse (strToBytes
      (r"    6a    C1    C2    C3    C4    C5    C6                  # / TYPES OF OBSERV")) []
      (by decide)⟩

end Crinex
